import Mathlib

/-
Verification of the DarkWebCrawler repository against its specification.

The development shallowly embeds the relevant parts of the source:
  - src/src/mongo_controller.py      (seed store: MongoController)
  - src/src/crawler/tor_controller.py (crawl loop: TorController)
  - src/src/persistence/neo_controller.py (ingestion client)
  - src/src/persistence/neo_ingest_server.py (ingestion service)
  - src/src/seed_loader.py            (bulk seed loader)

Timestamps are modelled as natural numbers, MongoDB documents as Lean
structures with Option-valued fields for properties that a document may
lack, and the seeds collection as a list of documents.  External library
behaviour (urlparse, BeautifulSoup extraction, the urljoin resolution and
the onion-address regular expression) is modelled by explicit function
parameters or small executable models, each marked in its doc comment.
-/

namespace DarkWeb

/-- Seed status values occurring in mongo_controller.py / tor_controller.py. -/
inductive SeedStatus
  | pending
  | in_progress
  | ingested
  | discarded
  | failed_perm
deriving DecidableEq, Repr

/-- An origin record as built in tor_controller.py line 261:
origin equals the dictionary with keys parent and anchor. -/
structure Origin where
  parent : String
  anchor : String
deriving DecidableEq, Repr

/-- One detection-context entry (root term, its synonyms, root flag),
the shape stored in the detected field of a seed. -/
structure Detected where
  root : String
  synonyms : List String
  is_root : Bool
deriving DecidableEq, Repr

/-- A seed document of the seeds collection.  Fields that some code paths
never write are Option-valued; a missing numeric attempts field is not
produced by the embedded writers (ensure_seed and load_seeds_bulk both
insert attempts equal to 0). -/
structure Seed where
  url : String
  host : String
  depth : Nat
  status : SeedStatus
  attempts : Nat
  priority : Int
  detected : List Detected
  origins : List Origin
  created_at : Nat
  updated_at : Nat
  last_try : Option Nat
  failed_reason : Option String
  discard_reason : Option String
  html_file_id : Option String
  title : Option String
  last_scraped : Option Nat
  scrape_attempts : Option Nat
deriving DecidableEq, Repr

/-- The characters after the first scheme separator of a url, or none
when the url has no scheme separator. -/
def afterSchemeSep : List Char → Option (List Char)
  | [] => none
  | ':' :: '/' :: '/' :: rest => some rest
  | _ :: rest => afterSchemeSep rest

/-- Model of Python urlparse(u).hostname: the network-location part of u
(component after the scheme separator, cut at the first slash, with any
port removed) lowercased, or none when u has no scheme separator or an
empty network location. -/
def hostname? (u : String) : Option String :=
  match afterSchemeSep u.data with
  | none => none
  | some rest =>
    let netloc := (rest.takeWhile fun c => c ≠ '/').takeWhile fun c => c ≠ ':'
    if netloc = [] then none else some (String.mk (netloc.map Char.toLower))

/-- Model of the idiom urlparse(url).hostname or url used in
mongo_controller.ensure_seed and in the ingestion service. -/
def hostOf (u : String) : String := (hostname? u).getD u

/-- The sort order of MongoController.pop_next_seed, line 89:
sort=[(depth, 1), (priority, -1), (created_at, 1)].  SeedBefore a b holds
when a sorts strictly before b. -/
def SeedBefore (a b : Seed) : Prop :=
  a.depth < b.depth ∨
    (a.depth = b.depth ∧ b.priority < a.priority) ∨
    (a.depth = b.depth ∧ a.priority = b.priority ∧ a.created_at < b.created_at)

instance (a b : Seed) : Decidable (SeedBefore a b) := by
  unfold SeedBefore; exact inferInstance

/-- Selects the first listed document among those minimal for SeedBefore,
modelling the document that MongoDB find_one_and_update picks under the
sort specification. -/
def selectMin : List Seed → Option Seed
  | [] => none
  | a :: rest =>
    match selectMin rest with
    | none => some a
    | some m => if SeedBefore m a then some m else some a

/-- MongoController.pop_next_seed (lines 84-92): one atomic
find_one_and_update on the pending predicate, setting status in_progress,
stamping last_try and incrementing attempts, returning the document after
the update.  The whole operation is a single state transition. -/
def pop_next_seed (now : Nat) (store : List Seed) : Option Seed × List Seed :=
  match selectMin (store.filter fun s => decide (s.status = SeedStatus.pending)) with
  | none => (none, store)
  | some s =>
    let s' :=
      { s with
        status := SeedStatus.in_progress
        last_try := some now
        attempts := s.attempts + 1 }
    (some s', store.map fun t => if t.url = s.url then s' else t)

/-- Fields merged by mark_done on the success path of the crawl loop
(tor_controller.py lines 335-340). -/
structure DoneFields where
  html_file_id : Option String
  title : String
  updated_at : Nat
  last_scraped : Nat
deriving DecidableEq, Repr

/-- MongoController.mark_done (lines 94-108): sets updated_at, then status
discarded plus discard_reason when a reason is given, otherwise status
ingested; finally merges the extra update fields. -/
def mark_done (now : Nat) (url : String) (fields : Option DoneFields)
    (discard : Option String) (store : List Seed) : List Seed :=
  store.map fun s =>
    if s.url = url then
      let s1 := { s with updated_at := now }
      let s2 :=
        match discard with
        | some r => { s1 with status := SeedStatus.discarded, discard_reason := some r }
        | none => { s1 with status := SeedStatus.ingested }
      match fields with
      | some f =>
          { s2 with
            html_file_id := f.html_file_id
            title := some f.title
            updated_at := f.updated_at
            last_scraped := some f.last_scraped }
      | none => s2
    else s

/-- MongoController.mark_failed (lines 110-116). -/
def mark_failed (now : Nat) (url : String) (reason : String)
    (store : List Seed) : List Seed :=
  store.map fun s =>
    if s.url = url then
      { s with
        status := SeedStatus.failed_perm
        failed_reason := some reason
        updated_at := now }
    else s

/-- MongoController.revert_to_pending (lines 118-123). -/
def revert_to_pending (now : Nat) (url : String) (store : List Seed) : List Seed :=
  store.map fun s =>
    if s.url = url then
      { s with status := SeedStatus.pending, updated_at := now }
    else s

/-- MongoController.ensure_seed (lines 125-146).  An upsert keyed by url:
when an origin is given, addToSet merges it into origins and setOnInsert
supplies the new document fields on insert; without an origin only the
setOnInsert applies.  The Python default detected=None and the expression
detected or [] are collapsed into the empty list. -/
def ensure_seed (now : Nat) (url : String) (detected : List Detected)
    (origin : Option Origin) (depth : Nat) (store : List Seed) : List Seed :=
  let base : Seed :=
    { url := url
      host := hostOf url
      depth := depth
      status := SeedStatus.pending
      attempts := 0
      priority := 0
      detected := detected
      origins := []
      created_at := now
      updated_at := now
      last_try := none
      failed_reason := none
      discard_reason := none
      html_file_id := none
      title := none
      last_scraped := none
      scrape_attempts := none }
  if store.any fun s => decide (s.url = url) then
    match origin with
    | some o =>
        store.map fun s =>
          if s.url = url then
            { s with origins := if o ∈ s.origins then s.origins else s.origins ++ [o] }
          else s
    | none => store
  else
    match origin with
    | some o => store ++ [{ base with origins := [o] }]
    | none => store ++ [base]

/-- One record of the seed-discovery input file as read by
load_seeds_bulk: s.get("url"), s.get("host"), s.get("detected", []). -/
structure SeedRecord where
  url : Option String
  host : Option String
  detected : List Detected
deriving DecidableEq, Repr

/-- One UpdateOne operation of MongoController.load_seeds_bulk
(lines 170-198) applied to the store: records without a truthy url are
skipped; for an existing url the always-applied set writes detected,
status pending and updated_at; otherwise the setOnInsert fields and the
set fields together form the inserted document. -/
def applyLoadOp (now : Nat) (store : List Seed) (sr : SeedRecord) : List Seed :=
  match sr.url with
  | none => store
  | some u =>
    if u = "" then store
    else if store.any fun s => decide (s.url = u) then
      store.map fun s =>
        if s.url = u then
          { s with
            detected := sr.detected
            status := SeedStatus.pending
            updated_at := now }
        else s
    else
      store ++
        [{ url := u
           host := sr.host.getD ""
           depth := 0
           status := SeedStatus.pending
           attempts := 0
           priority := 0
           detected := sr.detected
           origins := []
           created_at := now
           updated_at := now
           last_try := none
           failed_reason := none
           discard_reason := none
           html_file_id := none
           title := none
           last_scraped := none
           scrape_attempts := some 0 }]

/-- MongoController.load_seeds_bulk (lines 148-220): the bulk_write of all
prepared operations, applied in order. -/
def load_seeds_bulk (now : Nat) (records : List SeedRecord)
    (store : List Seed) : List Seed :=
  records.foldl (applyLoadOp now) store

/-- An HTTP response as seen by fetch_via_tor: requests response object,
restricted to the fields the crawl loop reads. -/
structure Response where
  status_code : Nat
  text : String
  content_type : String
deriving DecidableEq, Repr

/-- The Python exceptions relevant to fetch_via_tor.  All of them derive
from Exception; BaseException descendants that are not Exception
descendants (KeyboardInterrupt, SystemExit) are not raised by
requests.get and are outside the model. -/
inductive PyExn
  | timeoutErr
  | connectionErr
  | httpStatusErr (code : Nat)
  | requestErr
  | otherErr
deriving DecidableEq, Repr

/-- Outcome of the call requests.get(url, ...): either a response object
or a raised exception. -/
inductive GetResult
  | got (r : Response)
  | raised (e : PyExn)
deriving DecidableEq, Repr

/-- Model of requests Response.raise_for_status: raises HTTPError, a
RequestException descendant, exactly when 400 <= status_code < 600. -/
def raise_for_status (r : Response) : Except PyExn Unit :=
  if 400 ≤ r.status_code ∧ r.status_code < 600 then
    Except.error (PyExn.httpStatusErr r.status_code)
  else Except.ok ()

/-- Whether an exception is caught by the first handler of fetch_via_tor,
except (Timeout, ConnectionError, RequestException): HTTPError raised by
raise_for_status is a RequestException descendant. -/
def caughtByNetHandler : PyExn → Bool
  | PyExn.timeoutErr => true
  | PyExn.connectionErr => true
  | PyExn.httpStatusErr _ => true
  | PyExn.requestErr => true
  | PyExn.otherErr => false

/-- Whether an exception is caught by the second handler,
except Exception: every modelled exception derives from Exception. -/
def caughtByCatchAll : PyExn → Bool := fun _ => true

/-- TorController.fetch_via_tor (lines 75-86): the try body performs the
GET and raise_for_status and returns the response; the two handlers catch
and fall through to return None.  An uncaught exception would surface as
an Except.error value. -/
def fetch_via_tor (g : GetResult) : Except PyExn (Option Response) :=
  let body : Except PyExn Response :=
    match g with
    | GetResult.raised e => Except.error e
    | GetResult.got r =>
      match raise_for_status r with
      | Except.error e => Except.error e
      | Except.ok _ => Except.ok r
  match body with
  | Except.ok r => Except.ok (some r)
  | Except.error e =>
    if caughtByNetHandler e then Except.ok none
    else if caughtByCatchAll e then Except.ok none
    else Except.error e

/-- The value the caller of fetch_via_tor observes (the function never
raises, as proved below, so the Except layer collapses). -/
def fetchOpt (g : GetResult) : Option Response :=
  match fetch_via_tor g with
  | Except.ok v => v
  | Except.error _ => none

/-- An anchor element with an href, as iterated by
raw_soup.find_all("a", href=True) in tor_controller.py line 246. -/
structure Anchor where
  href : String
  text : String
  title : Option String
deriving DecidableEq, Repr

/-- The anchor text expression of tor_controller.py line 254:
a.get_text(strip=True) or (a.get("title") or "[enlace]"). -/
def anchorText (a : Anchor) : String :=
  if a.text ≠ "" then a.text
  else
    match a.title with
    | some t => if t ≠ "" then t else "[enlace]"
    | none => "[enlace]"

/-- One queued ensure_seed call produced by the link-extraction loop. -/
structure EnsureCall where
  url : String
  origin : Origin
  depth : Nat
deriving DecidableEq, Repr

/-- One entry of links_list (tor_controller.py lines 263-270). -/
structure LinkRow where
  src_url : String
  dst_url : String
  anchor : String
  depth : Nat
  dst_html_ref : Option String
  crawl_date : Option Nat
deriving DecidableEq, Repr

/-- One entry of matched_terms (tor_controller.py lines 278-285). -/
structure TermRow where
  page_url : String
  root : String
  synonym : String
  source : String
  crawl_date : Option Nat
deriving DecidableEq, Repr

/-- The normalization of tor_controller.py line 253: the destination
always becomes http plus hostname (or the full link when the hostname is
absent) plus a trailing slash. -/
def normLink (full_link : String) : String :=
  "http://" ++ (hostname? full_link).getD full_link ++ "/"

/-- The link-extraction loop of TorController.start_crawling
(lines 244-270).  The parameter m models onion_re.search and the
parameter res models urljoin(url, href).split(the fragment separator)[0];
hostname extraction reuses the urlparse model.  For each anchor: when the
resolved link matches the onion pattern it is normalized to
http plus host plus a trailing slash, self-links are skipped, an
ensure_seed call is queued only when new_depth is within max_depth, and a
link row is appended regardless of depth. -/
def processAnchors (m : String → Bool) (res : String → String → String)
    (url : String) (current_page_depth max_depth : Nat)
    (gridfs_ref : Option String) (crawled : Nat) :
    List Anchor → List EnsureCall × List LinkRow
  | [] => ([], [])
  | a :: rest =>
    let tail := processAnchors m res url current_page_depth max_depth gridfs_ref crawled rest
    let full_link := res url a.href
    if m full_link then
      let link := normLink full_link
      let atext := anchorText a
      if link = url then tail
      else
        ((if current_page_depth + 1 ≤ max_depth then
            { url := link
              origin := { parent := url, anchor := atext.take 200 }
              depth := current_page_depth + 1 } :: tail.1
          else tail.1),
         { src_url := url
           dst_url := link
           anchor := atext.take 200
           depth := current_page_depth
           dst_html_ref := gridfs_ref
           crawl_date := some crawled } :: tail.2)
    else tail

/-- The matched_terms construction of tor_controller.py lines 272-285:
one record per synonym of each detected entry, an empty detected list
(or Python None) produces no records. -/
def buildMatchedTerms (url : String) (crawled : Nat) :
    List Detected → List TermRow
  | [] => []
  | d :: rest =>
    d.synonyms.map (fun syn =>
      { page_url := url
        root := d.root
        synonym := syn
        source := "ahmia"
        crawl_date := some crawled })
      ++ buildMatchedTerms url crawled rest

/-- The page part of the ingestion payload (tor_controller.py
lines 287-294). -/
structure PageMsg where
  url : String
  title : String
  text : String
  crawl_date : Option Nat
  http_content_type : String
  html_file_id : Option String
deriving DecidableEq, Repr

/-- The full ingestion payload posted to the ingestion service. -/
structure IngestPayloadMsg where
  page : PageMsg
  links : List LinkRow
  matched_terms : List TermRow
deriving DecidableEq, Repr

/-- Configuration surface of the crawl loop (tor_controller.py
constructor). -/
structure Config where
  min_text_chars : Nat
  max_attempts : Nat
  max_depth : Nat
  max_pages_to_fetch : Nat
deriving DecidableEq, Repr

/-- External behaviour consumed by one crawl iteration: the network (per
url), BeautifulSoup text/title/anchor extraction (per fetched html),
urljoin resolution, the onion regular expression, the GridFS write and
the ingestion POST.  Each is a function so that a theorem quantifying
over Oracles covers every behaviour of the library calls. -/
structure Oracles where
  fetch : String → GetResult
  textOf : String → String
  titleOf : String → String
  anchorsOf : String → List Anchor
  resolve : String → String → String
  onionMatch : String → Bool
  gridfs : String → Option String
  ingest : IngestPayloadMsg → Option Nat

/-- Mutable state of the crawl loop: the seeds collection and the
processed-pages counter document. -/
structure CrawlState where
  seeds : List Seed
  processed : Nat
deriving DecidableEq, Repr

/-- The resolution of one pass of the while body of start_crawling. -/
inductive CrawlAction
  | limitStop
  | noPending
  | markedFailed (url : String)
  | fetchFailedReverted (url : String)
  | discardedShort (url : String)
  | saveFailedReverted (url : String)
  | discardedNoTerms (url : String)
  | ingestFailedReverted (url : String)
  | ingestedOk (url : String)
deriving DecidableEq, Repr

/-- Which external side effects the iteration performed. -/
structure EffectLog where
  fetched : Bool
  posted : Bool
deriving DecidableEq, Repr

/-- The link-extraction result of one iteration on a claimed seed with a
fetched response r and a GridFS reference: queued ensure_seed calls and
the links_list rows. -/
def iterationExtract (cfg : Config) (o : Oracles) (now : Nat) (seed : Seed)
    (r : Response) (gridfs_ref : String) : List EnsureCall × List LinkRow :=
  processAnchors o.onionMatch o.resolve seed.url seed.depth cfg.max_depth
    (some gridfs_ref) now (o.anchorsOf r.text)

/-- The seeds collection after the ensure_seed calls issued by the link
loop of one iteration, applied in order. -/
def iterationEnsures (cfg : Config) (o : Oracles) (now : Nat) (seed : Seed)
    (r : Response) (gridfs_ref : String) (seeds' : List Seed) : List Seed :=
  (iterationExtract cfg o now seed r gridfs_ref).1.foldl
    (fun acc e => ensure_seed now e.url seed.detected (some e.origin) e.depth acc)
    seeds'

/-- The payload the iteration posts to the ingestion service
(tor_controller.py lines 287-300). -/
def iterationPayload (cfg : Config) (o : Oracles) (now : Nat) (seed : Seed)
    (r : Response) (gridfs_ref : String) : IngestPayloadMsg :=
  { page :=
      { url := seed.url
        title := o.titleOf r.text
        text := (o.textOf r.text).take 10000
        crawl_date := some now
        http_content_type := r.content_type
        html_file_id := some gridfs_ref }
    links := (iterationExtract cfg o now seed r gridfs_ref).2
    matched_terms := buildMatchedTerms seed.url now seed.detected }

/-- One pass of the while body of TorController.start_crawling
(lines 162-350), excluding the sleeps.  The processed counter is
incremented exactly where get_and_inc_processed_count is called; the
ensure_seed calls of the link loop are applied to the store in order;
crawled (datetime.utcnow().isoformat()) is modelled by the iteration
clock now.  The duplicated matched_terms block of the source
(lines 313-322) repeats the first one verbatim and is dead code. -/
def crawlIteration (cfg : Config) (o : Oracles) (now : Nat)
    (st : CrawlState) : CrawlState × CrawlAction × EffectLog :=
  if cfg.max_pages_to_fetch ≤ st.processed then
    (st, CrawlAction.limitStop, { fetched := false, posted := false })
  else
    match pop_next_seed now st.seeds with
    | (none, seeds') =>
      ({ st with seeds := seeds' }, CrawlAction.noPending,
       { fetched := false, posted := false })
    | (some seed, seeds') =>
      let url := seed.url
      if cfg.max_attempts < seed.attempts then
        ({ st with seeds := mark_failed now url "max_attempts_reached" seeds' },
         CrawlAction.markedFailed url, { fetched := false, posted := false })
      else
        match fetchOpt (o.fetch url) with
        | none =>
          ({ st with seeds := revert_to_pending now url seeds' },
           CrawlAction.fetchFailedReverted url, { fetched := true, posted := false })
        | some r =>
          if r.text = "" then
            ({ st with seeds := revert_to_pending now url seeds' },
             CrawlAction.fetchFailedReverted url, { fetched := true, posted := false })
          else
            let html := r.text
            let text := o.textOf html
            if text = "" ∨ text.length < cfg.min_text_chars then
              ({ seeds := mark_done now url none (some "too_short_content") seeds'
                 processed := st.processed + 1 },
               CrawlAction.discardedShort url, { fetched := true, posted := false })
            else
              match o.gridfs url with
              | none =>
                ({ st with seeds := revert_to_pending now url seeds' },
                 CrawlAction.saveFailedReverted url,
                 { fetched := true, posted := false })
              | some gridfs_ref =>
                let title := o.titleOf html
                let seeds2 := iterationEnsures cfg o now seed r gridfs_ref seeds'
                let matched := buildMatchedTerms url now seed.detected
                let payload := iterationPayload cfg o now seed r gridfs_ref
                if matched = [] then
                  ({ seeds := mark_done now url none
                       (some "no_matching_terms_propagated") seeds2
                     processed := st.processed + 1 },
                   CrawlAction.discardedNoTerms url,
                   { fetched := true, posted := false })
                else
                  if o.ingest payload = some 200 then
                    ({ seeds := mark_done now url
                         (some { html_file_id := some gridfs_ref, title := title,
                                 updated_at := now, last_scraped := now }) none seeds2
                       processed := st.processed + 1 },
                     CrawlAction.ingestedOk url, { fetched := true, posted := true })
                  else
                    ({ st with seeds := revert_to_pending now url seeds2 },
                     CrawlAction.ingestFailedReverted url,
                     { fetched := true, posted := true })

/-- Iterates the crawl body a fixed number of times, collecting the
actions in order. -/
def crawlRun (cfg : Config) (o : Oracles) (now : Nat) :
    Nat → CrawlState → CrawlState × List CrawlAction
  | 0, st => (st, [])
  | Nat.succ k, st =>
    let step := crawlIteration cfg o now st
    let rest := crawlRun cfg o now k step.1
    (rest.1, step.2.1 :: rest.2)

/-- A Page node of the Neo4j graph.  Properties a clause never set are
none; seedLabel records the additional Seed label set when a node is
first created as a link destination. -/
structure PageNode where
  url : String
  title : Option String
  text : Option String
  host : Option String
  has_html_content : Option Bool
  first_seen : Option Nat
  first_seen_as_link : Option Nat
  updated_at : Option Nat
  seedLabel : Bool
deriving DecidableEq, Repr

/-- A LINKS_TO relationship, keyed by the two endpoint urls (the MERGE
pattern carries no properties, and Page urls are unique by constraint). -/
structure LinkEdge where
  src : String
  dst : String
  first_detected : Option Nat
  count : Nat
  depth : Option Nat
  last_detected : Option Nat
  last_anchor : Option String
deriving DecidableEq, Repr

/-- A MENTIONS relationship from a Page to a Synonym, keyed by the MERGE
pattern properties source and root together with the endpoints. -/
structure MentionEdge where
  page : String
  source : String
  root : String
  synonym : String
  first_seen : Option Nat
  count : Nat
deriving DecidableEq, Repr

/-- The Neo4j graph state touched by the ingestion service. -/
structure Graph where
  pages : List PageNode
  terms : List String
  synonyms : List String
  syn_of : List (String × String)
  links : List LinkEdge
  mentions : List MentionEdge
deriving DecidableEq, Repr

/-- The Page node a MERGE creates when only the url is bound. -/
def barePage (url : String) : PageNode :=
  { url := url
    title := none
    text := none
    host := none
    has_html_content := none
    first_seen := none
    first_seen_as_link := none
    updated_at := none
    seedLabel := false }

/-- MERGE (p:Page where url is fixed) with no ON CREATE clause: creates a
bare node when absent, otherwise leaves the graph unchanged. -/
def mergeBarePage (url : String) (g : Graph) : Graph :=
  if g.pages.any fun n => decide (n.url = url) then g
  else { g with pages := g.pages ++ [barePage url] }

/-- MERGE (b:Page where url is fixed) ON CREATE SET b:Seed,
b.first_seen_as_link = coalesce(r.crawl_date, timestamp()), as in the
link query of neo_ingest_server.py lines 107-122. -/
def mergeSeedPage (url : String) (crawl : Option Nat) (now : Nat)
    (g : Graph) : Graph :=
  if g.pages.any fun n => decide (n.url = url) then g
  else
    { g with pages := g.pages ++
        [{ barePage url with seedLabel := true,
                             first_seen_as_link := some (crawl.getD now) }] }

/-- The Page MERGE of neo_ingest_server.py lines 92-103: ON CREATE sets
title, text, host, has_html_content and first_seen; ON MATCH overwrites
title and text only when the incoming value is nonempty and always sets
updated_at, both timestamps via coalesce(crawl_date, timestamp()). -/
def mergePage (now : Nat) (url : String) (host : String) (title text : String)
    (crawl : Option Nat) (g : Graph) : Graph :=
  if g.pages.any fun n => decide (n.url = url) then
    { g with pages := g.pages.map fun n =>
        if n.url = url then
          { n with
            title := if title ≠ "" then some title else n.title
            text := if text ≠ "" then some text else n.text
            updated_at := some (crawl.getD now) }
        else n }
  else
    { g with pages := g.pages ++
        [{ url := url
           title := some title
           text := some text
           host := some host
           has_html_content := some true
           first_seen := some (crawl.getD now)
           first_seen_as_link := none
           updated_at := none
           seedLabel := false }] }

/-- The LINKS_TO MERGE clause alone: ON CREATE sets first_detected,
count 1 and depth; ON MATCH increments count and refreshes last_detected
and last_anchor. -/
def mergeLinkEdge (now : Nat) (r : LinkRow) (g : Graph) : Graph :=
  if g.links.any fun e => decide (e.src = r.src_url ∧ e.dst = r.dst_url) then
    { g with links := g.links.map fun e =>
        if e.src = r.src_url ∧ e.dst = r.dst_url then
          { e with
            count := e.count + 1
            last_detected := some (r.crawl_date.getD now)
            last_anchor := some r.anchor }
        else e }
  else
    { g with links := g.links ++
        [{ src := r.src_url
           dst := r.dst_url
           first_detected := some (r.crawl_date.getD now)
           count := 1
           depth := some r.depth
           last_detected := none
           last_anchor := none }] }

/-- One row of the UNWIND in the link query (neo_ingest_server.py lines
107-122): merge both endpoint pages, then merge the LINKS_TO edge. -/
def mergeLinkRow (now : Nat) (r : LinkRow) (g : Graph) : Graph :=
  mergeLinkEdge now r (mergeSeedPage r.dst_url r.crawl_date now (mergeBarePage r.src_url g))

/-- MERGE of the Term node, the first clause of the matched-terms query
(neo_ingest_server.py lines 126-135). -/
def mergeTermNode (root : String) (g : Graph) : Graph :=
  if root ∈ g.terms then g else { g with terms := g.terms ++ [root] }

/-- MERGE of the Synonym node. -/
def mergeSynonymNode (syn : String) (g : Graph) : Graph :=
  if syn ∈ g.synonyms then g else { g with synonyms := g.synonyms ++ [syn] }

/-- MERGE of the IS_SYNONYM_OF edge. -/
def mergeSynEdge (syn root : String) (g : Graph) : Graph :=
  if (syn, root) ∈ g.syn_of then g
  else { g with syn_of := g.syn_of ++ [(syn, root)] }

/-- The MENTIONS MERGE clause alone, keyed by page, source, root and
synonym: ON CREATE sets first_seen and count 1, ON MATCH increments
count. -/
def mergeMentionEdge (now : Nat) (r : TermRow) (g : Graph) : Graph :=
  if g.mentions.any fun e =>
      decide (e.page = r.page_url ∧ e.source = r.source ∧ e.root = r.root ∧
              e.synonym = r.synonym) then
    { g with mentions := g.mentions.map fun e =>
        if e.page = r.page_url ∧ e.source = r.source ∧ e.root = r.root ∧
            e.synonym = r.synonym then
          { e with count := e.count + 1 }
        else e }
  else
    { g with mentions := g.mentions ++
        [{ page := r.page_url
           source := r.source
           root := r.root
           synonym := r.synonym
           first_seen := some (r.crawl_date.getD now)
           count := 1 }] }

/-- One row of the UNWIND in the matched-terms query
(neo_ingest_server.py lines 126-135): merge Term, Synonym, the
IS_SYNONYM_OF edge and the page node, then merge the MENTIONS edge. -/
def mergeTermRow (now : Nat) (r : TermRow) (g : Graph) : Graph :=
  mergeMentionEdge now r (mergeBarePage r.page_url
    (mergeSynEdge r.synonym r.root (mergeSynonymNode r.synonym (mergeTermNode r.root g))))

/-- The UNWIND over the link rows, applied in order. -/
def linksFold (now : Nat) (rows : List LinkRow) (g : Graph) : Graph :=
  rows.foldl (fun acc r => mergeLinkRow now r acc) g

/-- The UNWIND over the matched-term rows, applied in order. -/
def termsFold (now : Nat) (rows : List TermRow) (g : Graph) : Graph :=
  rows.foldl (fun acc r => mergeTermRow now r acc) g

/-- NeoIngestServer._upsert_page_and_relations (lines 77-135): the page
merge, then the UNWIND over the link rows, then the UNWIND over the
matched-term rows, each row applied in order.  The server extracts url,
title and text with empty-string defaults and computes host from the url
via urlparse. -/
def upsert_page_and_relations (now : Nat) (p : IngestPayloadMsg)
    (g : Graph) : Graph :=
  termsFold now p.matched_terms
    (linksFold now p.links
      (mergePage now p.page.url (hostOf p.page.url) p.page.title p.page.text
        p.page.crawl_date g))

/-- The ingest_page route (neo_ingest_server.py lines 140-156): 403 on a
wrong or missing X-API-KEY header, 400 on a missing or page-less body,
500 when the upsert raises (modelled by driverUp false, the driver-gone
branch of line 79), otherwise 200 after the upsert. -/
def ingest_page_route (apiSecret : String) (reqKey : Option String)
    (body : Option IngestPayloadMsg) (driverUp : Bool) (now : Nat)
    (g : Graph) : Nat × Graph :=
  if reqKey ≠ some apiSecret then (403, g)
  else
    match body with
    | none => (400, g)
    | some p => if driverUp then (200, upsert_page_and_relations now p g) else (500, g)

/-- First page node with the given url. -/
def pageOf (g : Graph) (url : String) : Option PageNode :=
  g.pages.find? fun n => decide (n.url = url)

/-- First LINKS_TO edge with the given endpoints. -/
def linkOf (g : Graph) (src dst : String) : Option LinkEdge :=
  g.links.find? fun e => decide (e.src = src ∧ e.dst = dst)

/-- First MENTIONS edge with the given key. -/
def mentionOf (g : Graph) (page source root synonym : String) :
    Option MentionEdge :=
  g.mentions.find? fun e =>
    decide (e.page = page ∧ e.source = source ∧ e.root = root ∧
            e.synonym = synonym)

/-
Helper lemmas about the claim order and the selection function.
-/

theorem seedBefore_irrefl (s : Seed) : ¬ SeedBefore s s := by
  unfold SeedBefore; omega

theorem seedBefore_asymm {m s : Seed} (h : SeedBefore m s) : ¬ SeedBefore s m := by
  unfold SeedBefore at *; omega

theorem seedBefore_neg_trans {t m s : Seed} (h1 : ¬ SeedBefore t m)
    (h2 : ¬ SeedBefore m s) : ¬ SeedBefore t s := by
  unfold SeedBefore at *; omega

theorem selectMin_eq_none {l : List Seed} (h : selectMin l = none) : l = [] := by
  cases l with
  | nil => rfl
  | cons a rest =>
    unfold selectMin at h
    cases h2 : selectMin rest with
    | none =>
      rw [h2] at h
      have h' : some a = (none : Option Seed) := h
      simp at h'
    | some m =>
      rw [h2] at h
      have h' : (if SeedBefore m a then some m else some a) = (none : Option Seed) := h
      by_cases hb : SeedBefore m a
      · rw [if_pos hb] at h'; simp at h'
      · rw [if_neg hb] at h'; simp at h'

theorem selectMin_mem : ∀ {l : List Seed} {s : Seed}, selectMin l = some s → s ∈ l := by
  intro l
  induction l with
  | nil => intro s h; simp [selectMin] at h
  | cons a rest ih =>
    intro s h
    unfold selectMin at h
    cases hm : selectMin rest with
    | none =>
      rw [hm] at h
      have h' : some a = some s := h
      injection h' with h'
      subst h'
      exact List.mem_cons_self a rest
    | some m =>
      rw [hm] at h
      have h' : (if SeedBefore m a then some m else some a) = some s := h
      by_cases hb : SeedBefore m a
      · rw [if_pos hb] at h'
        injection h' with h'
        subst h'
        exact List.mem_cons_of_mem a (ih hm)
      · rw [if_neg hb] at h'
        injection h' with h'
        subst h'
        exact List.mem_cons_self a rest

theorem selectMin_minimal : ∀ {l : List Seed} {s : Seed}, selectMin l = some s →
    ∀ t ∈ l, ¬ SeedBefore t s := by
  intro l
  induction l with
  | nil => intro s h; simp [selectMin] at h
  | cons a rest ih =>
    intro s h t ht
    unfold selectMin at h
    cases hm : selectMin rest with
    | none =>
      rw [hm] at h
      have h' : some a = some s := h
      injection h' with h'
      have hnil := selectMin_eq_none hm
      subst hnil
      subst h'
      rcases List.mem_singleton.mp ht with rfl
      exact seedBefore_irrefl t
    | some m =>
      rw [hm] at h
      have h' : (if SeedBefore m a then some m else some a) = some s := h
      by_cases hb : SeedBefore m a
      · rw [if_pos hb] at h'
        injection h' with h'
        subst h'
        rcases List.mem_cons.mp ht with rfl | ht2
        · exact seedBefore_asymm hb
        · exact ih hm t ht2
      · rw [if_neg hb] at h'
        injection h' with h'
        subst h'
        rcases List.mem_cons.mp ht with rfl | ht2
        · exact seedBefore_irrefl t
        · exact seedBefore_neg_trans (ih hm t ht2) hb

/-- C2: pop_next_seed, when a pending seed exists, atomically (in one
state transition) selects a pending seed minimal for the order depth
ascending, priority descending, created_at ascending, sets its status to
in_progress, stamps last_try with the current time, increments attempts
by exactly one, and returns the updated seed together with the updated
store; when no pending seed exists it returns none and the unchanged
store. -/
theorem pop_next_seed_spec (now : Nat) (store : List Seed) :
    (match pop_next_seed now store with
     | (some s', store') =>
        ∃ s, s ∈ store ∧ s.status = SeedStatus.pending ∧
          (∀ t ∈ store, t.status = SeedStatus.pending → ¬ SeedBefore t s) ∧
          s' = { s with status := SeedStatus.in_progress, last_try := some now,
                        attempts := s.attempts + 1 } ∧
          store' = store.map fun t => if t.url = s.url then s' else t
     | (none, store') =>
        store' = store ∧ ∀ t ∈ store, t.status ≠ SeedStatus.pending) := by
  unfold pop_next_seed
  cases hm : selectMin (store.filter fun s => decide (s.status = SeedStatus.pending)) with
  | none =>
    have hnil := selectMin_eq_none hm
    refine ⟨rfl, ?_⟩
    intro t ht hst
    have : t ∈ store.filter fun s => decide (s.status = SeedStatus.pending) :=
      List.mem_filter.mpr ⟨ht, by simp [hst]⟩
    rw [hnil] at this
    simp at this
  | some s =>
    refine ⟨s, ?_, ?_, ?_, rfl, rfl⟩
    · exact (List.mem_filter.mp (selectMin_mem hm)).1
    · have h2 := (List.mem_filter.mp (selectMin_mem hm)).2
      simpa using h2
    · intro t ht hst
      exact selectMin_minimal hm t (List.mem_filter.mpr ⟨ht, by simp [hst]⟩)

/-- A pending depth-zero seed used in concrete instantiations. -/
def demoSeedA : Seed :=
  { url := "http://aaaa.onion/"
    host := "aaaa.onion"
    depth := 0
    status := SeedStatus.pending
    attempts := 0
    priority := 0
    detected := [{ root := "drugs", synonyms := ["drugs", "narcotics"], is_root := true }]
    origins := []
    created_at := 1
    updated_at := 1
    last_try := none
    failed_reason := none
    discard_reason := none
    html_file_id := none
    title := none
    last_scraped := none
    scrape_attempts := none }

/-- A pending depth-one seed used in concrete instantiations. -/
def demoSeedB : Seed := { demoSeedA with url := "http://bbbb.onion/", depth := 1, created_at := 0 }

theorem pop_next_seed_spec_witness :
    (match pop_next_seed 5 [demoSeedB, demoSeedA] with
     | (some s', store') =>
        ∃ s, s ∈ [demoSeedB, demoSeedA] ∧ s.status = SeedStatus.pending ∧
          (∀ t ∈ [demoSeedB, demoSeedA], t.status = SeedStatus.pending → ¬ SeedBefore t s) ∧
          s' = { s with status := SeedStatus.in_progress, last_try := some 5,
                        attempts := s.attempts + 1 } ∧
          store' = [demoSeedB, demoSeedA].map fun t => if t.url = s.url then s' else t
     | (none, store') =>
        store' = [demoSeedB, demoSeedA] ∧
          ∀ t ∈ [demoSeedB, demoSeedA], t.status ≠ SeedStatus.pending) :=
  pop_next_seed_spec 5 [demoSeedB, demoSeedA]

/-
The crawl-loop claims.
-/

theorem not_le_of_lt_nat {a b : Nat} (h : a < b) : ¬ (b ≤ a) := by omega

/-- C3: a seed returned by a claim whose attempts field (already
incremented by the claim) exceeds max_attempts is marked failed_perm with
reason max_attempts_reached; no fetch is performed in that iteration (the
effect log records no fetch, and the iteration result is independent of
every oracle, in particular of the network). -/
theorem crawl_exhausted_spec :
    ∀ (cfg : Config) (o o' : Oracles) (now : Nat) (st : CrawlState)
      (seed : Seed) (seeds' : List Seed),
    st.processed < cfg.max_pages_to_fetch →
    pop_next_seed now st.seeds = (some seed, seeds') →
    cfg.max_attempts < seed.attempts →
    crawlIteration cfg o now st =
      ({ st with seeds := mark_failed now seed.url "max_attempts_reached" seeds' },
       CrawlAction.markedFailed seed.url, { fetched := false, posted := false }) ∧
    crawlIteration cfg o' now st = crawlIteration cfg o now st ∧
    (∀ t ∈ mark_failed now seed.url "max_attempts_reached" seeds',
        t.url = seed.url →
        t.status = SeedStatus.failed_perm ∧
        t.failed_reason = some "max_attempts_reached") := by
  intro cfg o o' now st seed seeds' hp hpop hatt
  have h2 := not_le_of_lt_nat hp
  have hiter : ∀ oo : Oracles, crawlIteration cfg oo now st =
      ({ st with seeds := mark_failed now seed.url "max_attempts_reached" seeds' },
       CrawlAction.markedFailed seed.url, { fetched := false, posted := false }) := by
    intro oo
    unfold crawlIteration
    rw [if_neg h2, hpop]
    exact if_pos hatt
  refine ⟨hiter o, ?_, ?_⟩
  · rw [hiter o, hiter o']
  · intro t ht hturl
    unfold mark_failed at ht
    rcases List.mem_map.mp ht with ⟨u, hu, rfl⟩
    by_cases hcase : u.url = seed.url
    · rw [if_pos hcase]
      exact ⟨rfl, rfl⟩
    · rw [if_neg hcase] at hturl ⊢
      exact absurd hturl hcase

/-- A pending seed already past the attempt budget. -/
def demoSeedExhausted : Seed := { demoSeedA with attempts := 5 }

/-- Oracles with fixed behaviour for concrete runs: every fetch succeeds
with a fixed document, one onion anchor, GridFS succeeds, ingestion
accepts. -/
def demoOracles : Oracles :=
  { fetch := fun _ =>
      GetResult.got { status_code := 200, text := "<html>", content_type := "text/html" }
    textOf := fun _ => "long enough text"
    titleOf := fun _ => "T"
    anchorsOf := fun _ => [{ href := "http://cccc.onion/page", text := "c link", title := none }]
    resolve := fun _ href => href
    onionMatch := fun s => decide (10 < s.length)
    gridfs := fun _ => some "gid"
    ingest := fun _ => some 200 }

/-- Configuration used for concrete runs. -/
def demoConfig : Config :=
  { min_text_chars := 5, max_attempts := 4, max_depth := 3, max_pages_to_fetch := 1000 }

theorem crawl_exhausted_spec_witness :
    (crawlIteration demoConfig demoOracles 7 { seeds := [demoSeedExhausted], processed := 0 } =
      ({ seeds := mark_failed 7 "http://aaaa.onion/" "max_attempts_reached"
            [{ demoSeedExhausted with status := SeedStatus.in_progress,
                                      last_try := some 7, attempts := 6 }]
         processed := 0 },
       CrawlAction.markedFailed "http://aaaa.onion/",
       { fetched := false, posted := false })) ∧
    (∀ t ∈ mark_failed 7 "http://aaaa.onion/" "max_attempts_reached"
        [{ demoSeedExhausted with status := SeedStatus.in_progress,
                                  last_try := some 7, attempts := 6 }],
      t.url = "http://aaaa.onion/" →
      t.status = SeedStatus.failed_perm ∧
      t.failed_reason = some "max_attempts_reached") := by
  have h := crawl_exhausted_spec demoConfig demoOracles demoOracles 7
    { seeds := [demoSeedExhausted], processed := 0 }
    { demoSeedExhausted with status := SeedStatus.in_progress,
                             last_try := some 7, attempts := 6 }
    [{ demoSeedExhausted with status := SeedStatus.in_progress,
                              last_try := some 7, attempts := 6 }]
    (by decide) (by decide) (by decide)
  exact ⟨h.1, h.2.2⟩

/-- C9: fetch_via_tor never raises to its caller (its result is always
the caught Except.ok value); every raised network, timeout or protocol
exception yields no result; and the crawl loop treats an absent fetch
result as a retryable failure, reverting the claimed seed to pending. -/
theorem fetch_never_raises_spec :
    (∀ g : GetResult, fetch_via_tor g = Except.ok (fetchOpt g)) ∧
    (∀ e : PyExn, fetch_via_tor (GetResult.raised e) = Except.ok none) ∧
    (∀ (cfg : Config) (o : Oracles) (now : Nat) (st : CrawlState)
       (seed : Seed) (seeds' : List Seed),
      st.processed < cfg.max_pages_to_fetch →
      pop_next_seed now st.seeds = (some seed, seeds') →
      seed.attempts ≤ cfg.max_attempts →
      fetchOpt (o.fetch seed.url) = none →
      crawlIteration cfg o now st =
        ({ st with seeds := revert_to_pending now seed.url seeds' },
         CrawlAction.fetchFailedReverted seed.url,
         { fetched := true, posted := false }) ∧
      ∀ t ∈ revert_to_pending now seed.url seeds',
        t.url = seed.url → t.status = SeedStatus.pending) := by
  refine ⟨?_, ?_, ?_⟩
  · intro g
    unfold fetchOpt
    cases g with
    | raised e => cases e <;> rfl
    | got r =>
      by_cases h : 400 ≤ r.status_code ∧ r.status_code < 600
      · simp [fetch_via_tor, raise_for_status, caughtByNetHandler, if_pos h]
      · simp [fetch_via_tor, raise_for_status, if_neg h]
  · intro e
    cases e <;> rfl
  · intro cfg o now st seed seeds' hp hpop hatt hfetch
    have h2 := not_le_of_lt_nat hp
    constructor
    · have h3 : ¬ (cfg.max_attempts < seed.attempts) := by omega
      unfold crawlIteration
      rw [if_neg h2, hpop]
      simp only [hfetch, if_neg h3]
    · intro t ht hturl
      unfold revert_to_pending at ht
      rcases List.mem_map.mp ht with ⟨u, hu, rfl⟩
      by_cases hcase : u.url = seed.url
      · rw [if_pos hcase]
      · rw [if_neg hcase] at hturl ⊢
        exact absurd hturl hcase

/-- Oracles whose network always raises a connection error. -/
def demoOraclesNetFail : Oracles :=
  { demoOracles with fetch := fun _ => GetResult.raised PyExn.connectionErr }

theorem fetch_never_raises_spec_witness :
    (fetch_via_tor (demoOraclesNetFail.fetch "http://aaaa.onion/") =
      Except.ok (fetchOpt (demoOraclesNetFail.fetch "http://aaaa.onion/"))) ∧
    (fetch_via_tor (GetResult.raised PyExn.timeoutErr) = Except.ok none) ∧
    (crawlIteration demoConfig demoOraclesNetFail 7
        { seeds := [demoSeedA], processed := 0 } =
      ({ seeds := revert_to_pending 7 "http://aaaa.onion/"
            [{ demoSeedA with status := SeedStatus.in_progress,
                              last_try := some 7, attempts := 1 }]
         processed := 0 },
       CrawlAction.fetchFailedReverted "http://aaaa.onion/",
       { fetched := true, posted := false })) := by
  have h := fetch_never_raises_spec
  refine ⟨h.1 _, h.2.1 PyExn.timeoutErr, ?_⟩
  have h3 := h.2.2 demoConfig demoOraclesNetFail 7
    { seeds := [demoSeedA], processed := 0 }
    { demoSeedA with status := SeedStatus.in_progress, last_try := some 7, attempts := 1 }
    [{ demoSeedA with status := SeedStatus.in_progress, last_try := some 7, attempts := 1 }]
    (by decide) (by decide) (by decide) (by decide)
  exact h3.1

/-
Singleton-store run lemmas used for the bounded-retry claims.
-/

/-- The document pop_next_seed returns for a claimed seed. -/
def claimedSeed (now : Nat) (s : Seed) : Seed :=
  { s with
    status := SeedStatus.in_progress
    last_try := some now
    attempts := s.attempts + 1 }

/-- The seed after a claim followed by revert_to_pending. -/
def revertedSeed (now : Nat) (s : Seed) : Seed :=
  { s with
    status := SeedStatus.pending
    attempts := s.attempts + 1
    last_try := some now
    updated_at := now }

/-- The seed after a claim followed by mark_failed. -/
def failedSeed (now : Nat) (s : Seed) : Seed :=
  { s with
    status := SeedStatus.failed_perm
    attempts := s.attempts + 1
    last_try := some now
    failed_reason := some "max_attempts_reached"
    updated_at := now }

theorem pop_singleton_pending (now : Nat) (s : Seed)
    (h : s.status = SeedStatus.pending) :
    pop_next_seed now [s] =
      (some { s with status := SeedStatus.in_progress, last_try := some now,
                     attempts := s.attempts + 1 },
       [{ s with status := SeedStatus.in_progress, last_try := some now,
                 attempts := s.attempts + 1 }]) := by
  unfold pop_next_seed
  simp [selectMin, h]

theorem crawlIteration_singleton_fetchfail (cfg : Config) (o : Oracles)
    (now p : Nat) (s : Seed)
    (hp : p < cfg.max_pages_to_fetch) (hs : s.status = SeedStatus.pending)
    (hatt : s.attempts + 1 ≤ cfg.max_attempts)
    (hf : fetchOpt (o.fetch s.url) = none) :
    crawlIteration cfg o now { seeds := [s], processed := p } =
      ({ seeds := [revertedSeed now s], processed := p },
       CrawlAction.fetchFailedReverted s.url,
       { fetched := true, posted := false }) := by
  have h2 : ¬ (cfg.max_pages_to_fetch ≤ p) := by omega
  have h3 : ¬ (cfg.max_attempts < s.attempts + 1) := by omega
  unfold crawlIteration
  simp only [pop_singleton_pending now s hs, if_neg h2, if_neg h3, hf,
    revert_to_pending, revertedSeed, List.map_cons, List.map_nil, if_pos rfl, if_true]

theorem crawlIteration_singleton_exhaust (cfg : Config) (o : Oracles)
    (now p : Nat) (s : Seed)
    (hp : p < cfg.max_pages_to_fetch) (hs : s.status = SeedStatus.pending)
    (hatt : cfg.max_attempts < s.attempts + 1) :
    crawlIteration cfg o now { seeds := [s], processed := p } =
      ({ seeds := [failedSeed now s], processed := p },
       CrawlAction.markedFailed s.url,
       { fetched := false, posted := false }) := by
  have h2 : ¬ (cfg.max_pages_to_fetch ≤ p) := by omega
  unfold crawlIteration
  simp only [pop_singleton_pending now s hs, if_neg h2, if_pos hatt,
    mark_failed, failedSeed, List.map_cons, List.map_nil, if_pos rfl, if_true]

theorem crawlRun_allfail : ∀ (d : Nat) (cfg : Config) (o : Oracles)
    (now p : Nat) (s : Seed),
    p < cfg.max_pages_to_fetch →
    fetchOpt (o.fetch s.url) = none →
    s.status = SeedStatus.pending →
    s.attempts + d = cfg.max_attempts →
    ∃ sF : Seed,
      crawlRun cfg o now (d + 1) { seeds := [s], processed := p } =
        ({ seeds := [sF], processed := p },
         List.replicate d (CrawlAction.fetchFailedReverted s.url) ++
           [CrawlAction.markedFailed s.url]) ∧
      sF.url = s.url ∧ sF.status = SeedStatus.failed_perm ∧
      sF.failed_reason = some "max_attempts_reached" ∧
      sF.attempts = cfg.max_attempts + 1 := by
  intro d
  induction d with
  | zero =>
    intro cfg o now p s hp hf hs hd
    have hatt : cfg.max_attempts < s.attempts + 1 := by omega
    refine ⟨failedSeed now s, ?_, rfl, rfl, rfl, by simp [failedSeed]; omega⟩
    unfold crawlRun
    rw [crawlIteration_singleton_exhaust cfg o now p s hp hs hatt]
    simp [crawlRun]
  | succ d ih =>
    intro cfg o now p s hp hf hs hd
    have hatt : s.attempts + 1 ≤ cfg.max_attempts := by omega
    have hstep := crawlIteration_singleton_fetchfail cfg o now p s hp hs hatt hf
    have hd2 : (revertedSeed now s).attempts + d = cfg.max_attempts := by
      simp [revertedSeed]; omega
    have hf2 : fetchOpt (o.fetch (revertedSeed now s).url) = none := hf
    rcases ih cfg o now p (revertedSeed now s) hp hf2 rfl hd2 with
      ⟨sF, hrun, hurl, hst, hreason, hattF⟩
    refine ⟨sF, ?_, hurl, hst, hreason, hattF⟩
    show (let step := crawlIteration cfg o now { seeds := [s], processed := p }
          let rest := crawlRun cfg o now (d + 1) step.1
          (rest.1, step.2.1 :: rest.2)) = _
    rw [hstep]
    simp only [hrun]
    simp [revertedSeed, List.replicate_succ]

/-- C10 (amended): a fetch whose HTTP response carries a 4xx or 5xx
status code (the raise_for_status range; for example a permanent 404)
returns no result exactly as a network failure does, and on a
single-seed store with such a fetch outcome the crawl loop reverts the
seed to pending and re-claims it, incrementing attempts each claim,
until attempts exceeds max_attempts and the seed ends failed_perm with
reason max_attempts_reached; every iteration action is a revert or the
final permanent failure, so the seed is never discarded and no response
body is ever processed. -/
theorem http_error_fetch_spec :
    (∀ r : Response, 400 ≤ r.status_code → r.status_code < 600 →
      fetch_via_tor (GetResult.got r) = Except.ok none ∧
      fetchOpt (GetResult.got r) = none) ∧
    (∀ (d : Nat) (cfg : Config) (o : Oracles) (now p : Nat) (s : Seed),
      p < cfg.max_pages_to_fetch →
      fetchOpt (o.fetch s.url) = none →
      s.status = SeedStatus.pending →
      s.attempts + d = cfg.max_attempts →
      ∃ sF : Seed,
        crawlRun cfg o now (d + 1) { seeds := [s], processed := p } =
          ({ seeds := [sF], processed := p },
           List.replicate d (CrawlAction.fetchFailedReverted s.url) ++
             [CrawlAction.markedFailed s.url]) ∧
        sF.url = s.url ∧ sF.status = SeedStatus.failed_perm ∧
        sF.failed_reason = some "max_attempts_reached" ∧
        sF.attempts = cfg.max_attempts + 1) := by
  constructor
  · intro r h1 h2
    constructor
    · simp [fetch_via_tor, raise_for_status, caughtByNetHandler, if_pos (And.intro h1 h2)]
    · simp [fetchOpt, fetch_via_tor, raise_for_status, caughtByNetHandler,
        if_pos (And.intro h1 h2)]
  · exact crawlRun_allfail

/-- A 404 response with a body. -/
def demoResponse404 : Response :=
  { status_code := 404, text := "not found", content_type := "text/html" }

/-- Oracles whose network always returns a 404 response with a body. -/
def demoOracles404 : Oracles :=
  { demoOracles with fetch := fun _ => GetResult.got demoResponse404 }

theorem http_error_fetch_spec_witness :
    (fetch_via_tor (GetResult.got
        { status_code := 404, text := "not found", content_type := "text/html" }) =
      Except.ok none) ∧
    (∃ sF : Seed,
      crawlRun demoConfig demoOracles404 7 5 { seeds := [demoSeedA], processed := 0 } =
        ({ seeds := [sF], processed := 0 },
         List.replicate 4 (CrawlAction.fetchFailedReverted "http://aaaa.onion/") ++
           [CrawlAction.markedFailed "http://aaaa.onion/"]) ∧
      sF.url = "http://aaaa.onion/" ∧ sF.status = SeedStatus.failed_perm ∧
      sF.failed_reason = some "max_attempts_reached" ∧
      sF.attempts = demoConfig.max_attempts + 1) := by
  constructor
  · exact (http_error_fetch_spec.1
      { status_code := 404, text := "not found", content_type := "text/html" }
      (by decide) (by decide)).1
  · exact http_error_fetch_spec.2 4 demoConfig demoOracles404 7 0 demoSeedA
      (by decide) (by decide) (by decide) (by decide)

/-- C10 counterexample: a response with the non-2xx status 300 and a
nonempty body is outside the raise_for_status range, so fetch_via_tor
returns it as a result instead of returning none as the claim states. -/
theorem http_error_fetch_counterexample :
    fetch_via_tor (GetResult.got
        { status_code := 300, text := "multiple choices", content_type := "text/html" }) =
      Except.ok (some { status_code := 300, text := "multiple choices",
                        content_type := "text/html" }) ∧
    ¬ (200 ≤ (300 : Nat) ∧ (300 : Nat) < 300) := by
  constructor
  · rfl
  · decide

/-
C7: authentication failure at the ingestion boundary.
-/

/-- C7 (amended): the ingestion service answers 403 to a request with a
missing or wrong shared secret without touching the graph, and the crawl
loop treats that 403 exactly like every other non-200 ingestion outcome:
the seed is reverted to pending for a later re-claim (it is retried,
bounded only by the attempts budget). -/
theorem ingest_auth_failure_spec :
    (∀ (secret : String) (key : Option String) (body : Option IngestPayloadMsg)
       (dUp : Bool) (now : Nat) (g : Graph), key ≠ some secret →
      ingest_page_route secret key body dUp now g = (403, g)) ∧
    (∀ (cfg : Config) (o : Oracles) (now : Nat) (st : CrawlState)
       (seed : Seed) (seeds' : List Seed) (r : Response) (gid : String),
      st.processed < cfg.max_pages_to_fetch →
      pop_next_seed now st.seeds = (some seed, seeds') →
      seed.attempts ≤ cfg.max_attempts →
      fetchOpt (o.fetch seed.url) = some r →
      r.text ≠ "" →
      o.textOf r.text ≠ "" →
      cfg.min_text_chars ≤ (o.textOf r.text).length →
      o.gridfs seed.url = some gid →
      buildMatchedTerms seed.url now seed.detected ≠ [] →
      o.ingest (iterationPayload cfg o now seed r gid) = some 403 →
      crawlIteration cfg o now st =
        ({ st with seeds := revert_to_pending now seed.url (iterationEnsures cfg o now seed r gid seeds') },
         CrawlAction.ingestFailedReverted seed.url,
         { fetched := true, posted := true }) ∧
      ∀ t ∈ revert_to_pending now seed.url
          (iterationEnsures cfg o now seed r gid seeds'),
        t.url = seed.url → t.status = SeedStatus.pending) := by
  constructor
  · intro secret key body dUp now g hkey
    unfold ingest_page_route
    rw [if_pos hkey]
  · intro cfg o now st seed seeds' r gid hp hpop hatt hfetch htext hx1 hx2 hgrid hm h403
    have h2 := not_le_of_lt_nat hp
    have h3 : ¬ (cfg.max_attempts < seed.attempts) := by omega
    have h5 : ¬ (o.textOf r.text = "" ∨ (o.textOf r.text).length < cfg.min_text_chars) := by
      push_neg
      exact ⟨hx1, by omega⟩
    constructor
    · unfold crawlIteration
      rw [if_neg h2, hpop]
      simp only [hfetch, if_neg h3, if_neg htext, if_neg h5, hgrid, if_neg hm, h403]
      simp
    · intro t ht hturl
      unfold revert_to_pending at ht
      rcases List.mem_map.mp ht with ⟨u, hu, rfl⟩
      by_cases hcase : u.url = seed.url
      · rw [if_pos hcase]
      · rw [if_neg hcase] at hturl ⊢
        exact absurd hturl hcase

/-- Oracles identical to the demo ones except that every ingestion POST
is rejected with 403 (invalid shared secret). -/
def demoOracles403 : Oracles := { demoOracles with ingest := fun _ => some 403 }

/-- The empty graph. -/
def emptyGraph : Graph :=
  { pages := [], terms := [], synonyms := [], syn_of := [], links := [], mentions := [] }

theorem ingest_auth_failure_spec_witness :
    (ingest_page_route "changeme" (some "wrong") none true 7 emptyGraph =
      (403, emptyGraph)) ∧
    (crawlIteration demoConfig demoOracles403 7
        { seeds := [demoSeedA], processed := 0 }).2.1 =
      CrawlAction.ingestFailedReverted "http://aaaa.onion/" := by
  constructor
  · exact ingest_auth_failure_spec.1 "changeme" (some "wrong") none true 7
      emptyGraph (by decide)
  · have h := (ingest_auth_failure_spec.2 demoConfig demoOracles403 7
      { seeds := [demoSeedA], processed := 0 }
      { demoSeedA with status := SeedStatus.in_progress, last_try := some 7, attempts := 1 }
      [{ demoSeedA with status := SeedStatus.in_progress, last_try := some 7, attempts := 1 }]
      { status_code := 200, text := "<html>", content_type := "text/html" } "gid"
      (by decide) (by decide) (by decide) (by decide) (by decide) (by decide)
      (by decide) (by decide) (by decide) (by decide)).1
    rw [h]
    rfl

/-- C7 counterexample: with an ingestion service answering 403, the crawl
loop does revert the claimed seed to pending (the claim states the seed
is not reverted). -/
theorem ingest_auth_failure_counterexample :
    (crawlIteration demoConfig demoOracles403 7
        { seeds := [demoSeedA], processed := 0 }).2.1 =
      CrawlAction.ingestFailedReverted "http://aaaa.onion/" ∧
    ((crawlIteration demoConfig demoOracles403 7
        { seeds := [demoSeedA], processed := 0 }).1.seeds.map Seed.status) =
      [SeedStatus.pending, SeedStatus.pending] := by
  constructor
  · decide
  · decide

/-
C5: depth bound of link propagation.
-/

/-- C5: in the link-extraction loop, for every anchor whose resolved link
matches the overlay address pattern and is not a self-link: when
depth + 1 exceeds max_depth no ensure_seed call is queued at all yet the
link row is still appended; when depth + 1 is within max_depth an
ensure_seed call with exactly depth + 1 is queued; and every queued
ensure_seed call carries depth + 1 with depth + 1 within max_depth, so no
seed is ever enqueued at a depth beyond max_depth. -/
theorem link_depth_bound_spec :
    ∀ (m : String → Bool) (res : String → String → String) (url : String)
      (depth maxD : Nat) (ref : Option String) (crawled : Nat)
      (anchors : List Anchor),
    (∀ e ∈ (processAnchors m res url depth maxD ref crawled anchors).1,
        e.depth = depth + 1 ∧ depth + 1 ≤ maxD) ∧
    (maxD < depth + 1 →
      (processAnchors m res url depth maxD ref crawled anchors).1 = [] ∧
      ∀ a ∈ anchors, m (res url a.href) = true →
        normLink (res url a.href) ≠ url →
        ({ src_url := url
           dst_url := normLink (res url a.href)
           anchor := (anchorText a).take 200
           depth := depth
           dst_html_ref := ref
           crawl_date := some crawled } : LinkRow) ∈
          (processAnchors m res url depth maxD ref crawled anchors).2) ∧
    (depth + 1 ≤ maxD →
      ∀ a ∈ anchors, m (res url a.href) = true →
        normLink (res url a.href) ≠ url →
        ({ url := normLink (res url a.href)
           origin := { parent := url, anchor := (anchorText a).take 200 }
           depth := depth + 1 } : EnsureCall) ∈
          (processAnchors m res url depth maxD ref crawled anchors).1) := by
  intro m res url depth maxD ref crawled anchors
  refine ⟨?_, ?_, ?_⟩
  · induction anchors with
    | nil => intro e he; simp [processAnchors] at he
    | cons a rest ih =>
      intro e he
      unfold processAnchors at he
      by_cases hm : m (res url a.href) = true
      · rw [if_pos hm] at he
        by_cases hself : normLink (res url a.href) = url
        · rw [if_pos hself] at he
          exact ih e he
        · rw [if_neg hself] at he
          by_cases hd : depth + 1 ≤ maxD
          · rw [if_pos hd] at he
            rcases List.mem_cons.mp he with rfl | he2
            · exact ⟨rfl, hd⟩
            · exact ih e he2
          · rw [if_neg hd] at he
            exact ih e he
      · rw [if_neg hm] at he
        exact ih e he
  · intro hdeep
    have hd : ¬ (depth + 1 ≤ maxD) := by omega
    constructor
    · induction anchors with
      | nil => simp [processAnchors]
      | cons a rest ih =>
        unfold processAnchors
        by_cases hm : m (res url a.href) = true
        · rw [if_pos hm]
          by_cases hself : normLink (res url a.href) = url
          · rw [if_pos hself]
            exact ih
          · rw [if_neg hself, if_neg hd]
            exact ih
        · rw [if_neg hm]
          exact ih
    · induction anchors with
      | nil => intro a ha; simp at ha
      | cons a rest ih =>
        intro b hb hmb hselfb
        unfold processAnchors
        by_cases hm : m (res url a.href) = true
        · rw [if_pos hm]
          by_cases hself : normLink (res url a.href) = url
          · rw [if_pos hself]
            rcases List.mem_cons.mp hb with rfl | hb2
            · exact absurd hself hselfb
            · exact ih b hb2 hmb hselfb
          · rw [if_neg hself, if_neg hd]
            rcases List.mem_cons.mp hb with rfl | hb2
            · exact List.mem_cons_self _ _
            · exact List.mem_cons_of_mem _ (ih b hb2 hmb hselfb)
        · rw [if_neg hm]
          rcases List.mem_cons.mp hb with rfl | hb2
          · exact absurd hmb hm
          · exact ih b hb2 hmb hselfb
  · intro hd
    induction anchors with
    | nil => intro a ha; simp at ha
    | cons a rest ih =>
      intro b hb hmb hselfb
      unfold processAnchors
      by_cases hm : m (res url a.href) = true
      · rw [if_pos hm]
        by_cases hself : normLink (res url a.href) = url
        · rw [if_pos hself]
          rcases List.mem_cons.mp hb with rfl | hb2
          · exact absurd hself hselfb
          · exact ih b hb2 hmb hselfb
        · rw [if_neg hself, if_pos hd]
          rcases List.mem_cons.mp hb with rfl | hb2
          · exact List.mem_cons_self _ _
          · exact List.mem_cons_of_mem _ (ih b hb2 hmb hselfb)
      · rw [if_neg hm]
        rcases List.mem_cons.mp hb with rfl | hb2
        · exact absurd hmb hm
        · exact ih b hb2 hmb hselfb

/-- A concrete anchor whose resolved target matches the onion pattern. -/
def demoAnchor : Anchor :=
  { href := "http://cccc.onion/page", text := "c link", title := none }

theorem link_depth_bound_spec_witness :
    (({ url := normLink ((fun _ href => href : String → String → String)
          "http://aaaa.onion/" demoAnchor.href)
        origin := { parent := "http://aaaa.onion/",
                    anchor := (anchorText demoAnchor).take 200 }
        depth := 0 + 1 } : EnsureCall) ∈
      (processAnchors (fun s => decide (10 < s.length)) (fun _ href => href)
        "http://aaaa.onion/" 0 3 (some "gid") 7 [demoAnchor]).1) ∧
    (∀ e ∈ (processAnchors (fun s => decide (10 < s.length)) (fun _ href => href)
        "http://aaaa.onion/" 0 3 (some "gid") 7 [demoAnchor]).1,
      e.depth = 0 + 1 ∧ 0 + 1 ≤ 3) := by
  have h := link_depth_bound_spec (fun s => decide (10 < s.length))
    (fun _ href => href) "http://aaaa.onion/" 0 3 (some "gid") 7 [demoAnchor]
  exact ⟨h.2.2 (by decide) demoAnchor (by decide) (by decide) (by decide), h.1⟩


/-
C4: ensure_seed on an existing url.
-/

/-- C4: calling ensure_seed for a url that already has a seed, with any
detected, origin and depth arguments, inserts nothing (the store keeps
its length), leaves every seed's url, status, depth, attempts and
detected unchanged, and merges the origin into the matching seed's
origins with set semantics: nothing is added when the origin is already
present (or absent), and a duplicate-free origins list stays
duplicate-free. -/
theorem ensure_seed_existing_spec :
    ∀ (now : Nat) (url : String) (detected : List Detected)
      (origin : Option Origin) (depth : Nat) (store : List Seed),
    (∃ s ∈ store, s.url = url) →
    (ensure_seed now url detected origin depth store).length = store.length ∧
    ∀ i (h1 : i < store.length)
      (h2 : i < (ensure_seed now url detected origin depth store).length),
      ((ensure_seed now url detected origin depth store).get ⟨i, h2⟩).url =
        (store.get ⟨i, h1⟩).url ∧
      ((ensure_seed now url detected origin depth store).get ⟨i, h2⟩).status =
        (store.get ⟨i, h1⟩).status ∧
      ((ensure_seed now url detected origin depth store).get ⟨i, h2⟩).depth =
        (store.get ⟨i, h1⟩).depth ∧
      ((ensure_seed now url detected origin depth store).get ⟨i, h2⟩).attempts =
        (store.get ⟨i, h1⟩).attempts ∧
      ((ensure_seed now url detected origin depth store).get ⟨i, h2⟩).detected =
        (store.get ⟨i, h1⟩).detected ∧
      ((ensure_seed now url detected origin depth store).get ⟨i, h2⟩).origins =
        (if (store.get ⟨i, h1⟩).url = url then
           match origin with
           | some o =>
             if o ∈ (store.get ⟨i, h1⟩).origins then (store.get ⟨i, h1⟩).origins
             else (store.get ⟨i, h1⟩).origins ++ [o]
           | none => (store.get ⟨i, h1⟩).origins
         else (store.get ⟨i, h1⟩).origins) ∧
      ((store.get ⟨i, h1⟩).origins.Nodup →
        ((ensure_seed now url detected origin depth store).get ⟨i, h2⟩).origins.Nodup) := by
  intro now url detected origin depth store hex
  have hany : (store.any fun s => decide (s.url = url)) = true := by
    rcases hex with ⟨s, hs, hurl⟩
    exact List.any_eq_true.mpr ⟨s, hs, by simp [hurl]⟩
  have hnodup : ∀ (s : Seed),
      s.origins.Nodup →
      (match origin with
       | some o => if o ∈ s.origins then s.origins else s.origins ++ [o]
       | none => s.origins).Nodup := by
    intro s hnd
    cases origin with
    | none => exact hnd
    | some o =>
      show (if o ∈ s.origins then s.origins else s.origins ++ [o]).Nodup
      by_cases hmem : o ∈ s.origins
      · simpa [hmem] using hnd
      · rw [if_neg hmem, List.nodup_append]
        refine ⟨hnd, List.nodup_singleton o, ?_⟩
        intro x hx hx2
        rcases List.mem_singleton.mp hx2 with rfl
        exact hmem hx
  cases origin with
  | none =>
    have hres : ensure_seed now url detected none depth store = store := by
      unfold ensure_seed
      rw [if_pos hany]
    refine ⟨by rw [hres], ?_⟩
    intro i h1 h2
    have e1 : (ensure_seed now url detected none depth store).get ⟨i, h2⟩ =
        store.get ⟨i, h1⟩ := List.get_of_eq hres ⟨i, h2⟩
    rw [e1]
    refine ⟨rfl, rfl, rfl, rfl, rfl, ?_, fun h => h⟩
    by_cases hcase : (store.get ⟨i, h1⟩).url = url
    · rw [if_pos hcase]
    · rw [if_neg hcase]
  | some o =>
    have hres : ensure_seed now url detected (some o) depth store =
        store.map fun s =>
          if s.url = url then
            { s with origins := if o ∈ s.origins then s.origins else s.origins ++ [o] }
          else s := by
      unfold ensure_seed
      rw [if_pos hany]
    have hlen : (ensure_seed now url detected (some o) depth store).length =
        store.length := by
      rw [hres]
      exact List.length_map store _
    refine ⟨hlen, ?_⟩
    intro i h1 h2
    have e1 := List.get_of_eq hres ⟨i, h2⟩
    rw [e1]
    have e2 : (store.map fun s =>
        if s.url = url then
          { s with origins := if o ∈ s.origins then s.origins else s.origins ++ [o] }
        else s).get ⟨i, by simpa using h1⟩ =
        (fun s =>
          if s.url = url then
            { s with origins := if o ∈ s.origins then s.origins else s.origins ++ [o] }
          else s) (store.get ⟨i, h1⟩) := by
      simp [List.get_eq_getElem]
    rw [e2]
    dsimp only
    by_cases hcase : (store.get ⟨i, h1⟩).url = url
    · rw [if_pos hcase, if_pos hcase]
      exact ⟨rfl, rfl, rfl, rfl, rfl, rfl, fun h => hnodup _ h⟩
    · rw [if_neg hcase, if_neg hcase]
      exact ⟨rfl, rfl, rfl, rfl, rfl, rfl, fun h => h⟩

theorem ensure_seed_existing_spec_witness :
    (∃ s ∈ [demoSeedA], s.url = "http://aaaa.onion/") ∧
    ((ensure_seed 9 "http://aaaa.onion/" []
        (some { parent := "http://bbbb.onion/", anchor := "a" }) 2 [demoSeedA]).length =
      [demoSeedA].length ∧
    ∀ i (h1 : i < [demoSeedA].length)
      (h2 : i < (ensure_seed 9 "http://aaaa.onion/" []
        (some { parent := "http://bbbb.onion/", anchor := "a" }) 2 [demoSeedA]).length),
      ((ensure_seed 9 "http://aaaa.onion/" []
        (some { parent := "http://bbbb.onion/", anchor := "a" }) 2 [demoSeedA]).get ⟨i, h2⟩).url =
        ([demoSeedA].get ⟨i, h1⟩).url ∧
      ((ensure_seed 9 "http://aaaa.onion/" []
        (some { parent := "http://bbbb.onion/", anchor := "a" }) 2 [demoSeedA]).get ⟨i, h2⟩).status =
        ([demoSeedA].get ⟨i, h1⟩).status ∧
      ((ensure_seed 9 "http://aaaa.onion/" []
        (some { parent := "http://bbbb.onion/", anchor := "a" }) 2 [demoSeedA]).get ⟨i, h2⟩).depth =
        ([demoSeedA].get ⟨i, h1⟩).depth ∧
      ((ensure_seed 9 "http://aaaa.onion/" []
        (some { parent := "http://bbbb.onion/", anchor := "a" }) 2 [demoSeedA]).get ⟨i, h2⟩).attempts =
        ([demoSeedA].get ⟨i, h1⟩).attempts ∧
      ((ensure_seed 9 "http://aaaa.onion/" []
        (some { parent := "http://bbbb.onion/", anchor := "a" }) 2 [demoSeedA]).get ⟨i, h2⟩).detected =
        ([demoSeedA].get ⟨i, h1⟩).detected ∧
      ((ensure_seed 9 "http://aaaa.onion/" []
        (some { parent := "http://bbbb.onion/", anchor := "a" }) 2 [demoSeedA]).get ⟨i, h2⟩).origins =
        (if ([demoSeedA].get ⟨i, h1⟩).url = "http://aaaa.onion/" then
           match (some { parent := "http://bbbb.onion/", anchor := "a" } : Option Origin) with
           | some o =>
             if o ∈ ([demoSeedA].get ⟨i, h1⟩).origins then ([demoSeedA].get ⟨i, h1⟩).origins
             else ([demoSeedA].get ⟨i, h1⟩).origins ++ [o]
           | none => ([demoSeedA].get ⟨i, h1⟩).origins
         else ([demoSeedA].get ⟨i, h1⟩).origins) ∧
      (([demoSeedA].get ⟨i, h1⟩).origins.Nodup →
        ((ensure_seed 9 "http://aaaa.onion/" []
          (some { parent := "http://bbbb.onion/", anchor := "a" }) 2 [demoSeedA]).get ⟨i, h2⟩).origins.Nodup)) :=
  ⟨⟨demoSeedA, by decide, by decide⟩,
   ensure_seed_existing_spec 9 "http://aaaa.onion/" []
     (some { parent := "http://bbbb.onion/", anchor := "a" }) 2 [demoSeedA]
     ⟨demoSeedA, by decide, by decide⟩⟩



/-
C6: the bulk seed loader and existing seeds.
-/

theorem load_seeds_bulk_cons (now : Nat) (sr : SeedRecord)
    (rest : List SeedRecord) (store : List Seed) :
    load_seeds_bulk now (sr :: rest) store =
      load_seeds_bulk now rest (applyLoadOp now store sr) := rfl

theorem applyLoadOp_frame (now : Nat) (sr : SeedRecord) (store : List Seed) :
    ∀ s ∈ store, ∃ s', s' ∈ applyLoadOp now store sr ∧ s'.url = s.url ∧
      s'.depth = s.depth ∧ s'.attempts = s.attempts ∧
      s'.created_at = s.created_at ∧
      (s.status = SeedStatus.pending → s'.status = SeedStatus.pending) := by
  intro s hs
  unfold applyLoadOp
  cases hurl : sr.url with
  | none => exact ⟨s, hs, rfl, rfl, rfl, rfl, fun h => h⟩
  | some u =>
    dsimp only
    by_cases hu : u = ""
    · rw [if_pos hu]
      exact ⟨s, hs, rfl, rfl, rfl, rfl, fun h => h⟩
    · rw [if_neg hu]
      by_cases hany : (store.any fun t => decide (t.url = u)) = true
      · rw [if_pos hany]
        refine ⟨_, List.mem_map.mpr ⟨s, hs, rfl⟩, ?_⟩
        by_cases hcase : s.url = u
        · simp [hcase]
        · simp [hcase]
      · rw [if_neg hany]
        exact ⟨s, List.mem_append_left _ hs, rfl, rfl, rfl, rfl, fun h => h⟩

theorem load_seeds_bulk_frame (now : Nat) : ∀ (records : List SeedRecord)
    (store : List Seed), ∀ s ∈ store,
    ∃ s', s' ∈ load_seeds_bulk now records store ∧ s'.url = s.url ∧
      s'.depth = s.depth ∧ s'.attempts = s.attempts ∧
      s'.created_at = s.created_at ∧
      (s.status = SeedStatus.pending → s'.status = SeedStatus.pending) := by
  intro records
  induction records with
  | nil =>
    intro store s hs
    exact ⟨s, hs, rfl, rfl, rfl, rfl, fun h => h⟩
  | cons sr rest ih =>
    intro store s hs
    rw [load_seeds_bulk_cons]
    rcases applyLoadOp_frame now sr store s hs with
      ⟨s1, hs1, hu1, hd1, ha1, hc1, hp1⟩
    rcases ih (applyLoadOp now store sr) s1 hs1 with
      ⟨s2, hs2, hu2, hd2, ha2, hc2, hp2⟩
    refine ⟨s2, hs2, ?_, ?_, ?_, ?_, ?_⟩
    · rw [hu2, hu1]
    · rw [hd2, hd1]
    · rw [ha2, ha1]
    · rw [hc2, hc1]
    · intro h
      exact hp2 (hp1 h)

theorem applyLoadOp_pending (now : Nat) (sr : SeedRecord) (store : List Seed)
    (u : String) (h1 : sr.url = some u) (h2 : u ≠ "")
    (hex : ∃ s ∈ store, s.url = u) :
    ∃ s', s' ∈ applyLoadOp now store sr ∧ s'.url = u ∧
      s'.status = SeedStatus.pending := by
  rcases hex with ⟨s, hs, hsu⟩
  have hany : (store.any fun t => decide (t.url = u)) = true :=
    List.any_eq_true.mpr ⟨s, hs, by simp [hsu]⟩
  unfold applyLoadOp
  rw [h1]
  dsimp only
  rw [if_neg h2, if_pos hany]
  refine ⟨_, List.mem_map.mpr ⟨s, hs, rfl⟩, ?_⟩
  rw [if_pos hsu]
  exact ⟨hsu, rfl⟩

theorem load_pending_aux (now : Nat) : ∀ (records : List SeedRecord)
    (store : List Seed) (sr : SeedRecord) (u : String),
    sr ∈ records → sr.url = some u → u ≠ "" →
    (∃ s ∈ store, s.url = u) →
    ∃ s', s' ∈ load_seeds_bulk now records store ∧ s'.url = u ∧
      s'.status = SeedStatus.pending := by
  intro records
  induction records with
  | nil =>
    intro store sr u hmem
    simp at hmem
  | cons sr0 rest ih =>
    intro store sr u hmem hurl hne hex
    rw [load_seeds_bulk_cons]
    rcases List.mem_cons.mp hmem with rfl | hmem2
    · rcases applyLoadOp_pending now sr store u hurl hne hex with ⟨s1, hs1, hu1, hp1⟩
      rcases load_seeds_bulk_frame now rest (applyLoadOp now store sr) s1 hs1 with
        ⟨s2, hs2, hu2, _, _, _, himp⟩
      refine ⟨s2, hs2, ?_, himp hp1⟩
      rw [hu2, hu1]
    · rcases hex with ⟨s, hs, hsu⟩
      rcases applyLoadOp_frame now sr0 store s hs with ⟨s1, hs1, hu1, _, _, _, _⟩
      exact ih (applyLoadOp now store sr0) sr u hmem2 hurl hne
        ⟨s1, hs1, by rw [hu1, hsu]⟩

/-- C6 (amended): for every record of the seed-discovery input file whose
url already exists as a seed, running the loader sets that seed's status
back to pending whatever it was before (in particular a terminal
ingested, discarded or failed_perm seed, or an in_progress one, is moved
back to pending); the loader preserves every existing seed's url, depth,
attempts and created_at. -/
theorem loader_resets_status_spec (now : Nat) (records : List SeedRecord)
    (store : List Seed) :
    (∀ s ∈ store, ∃ s', s' ∈ load_seeds_bulk now records store ∧
        s'.url = s.url ∧ s'.depth = s.depth ∧ s'.attempts = s.attempts ∧
        s'.created_at = s.created_at) ∧
    (∀ sr ∈ records, ∀ u : String, sr.url = some u → u ≠ "" →
        (∃ s ∈ store, s.url = u) →
        ∃ s', s' ∈ load_seeds_bulk now records store ∧ s'.url = u ∧
          s'.status = SeedStatus.pending) := by
  constructor
  · intro s hs
    rcases load_seeds_bulk_frame now records store s hs with
      ⟨s2, hs2, hu2, hd2, ha2, hc2, _⟩
    exact ⟨s2, hs2, hu2, hd2, ha2, hc2⟩
  · intro sr hmem u hurl hne hex
    exact load_pending_aux now records store sr u hmem hurl hne hex

/-- A seed already in the terminal state ingested. -/
def demoSeedIngested : Seed := { demoSeedA with status := SeedStatus.ingested }

/-- An input-file record for the url of demoSeedIngested. -/
def demoRecordA : SeedRecord :=
  { url := some "http://aaaa.onion/", host := some "aaaa.onion", detected := [] }

theorem loader_resets_status_spec_witness :
    (∀ s ∈ [demoSeedIngested],
      ∃ s', s' ∈ load_seeds_bulk 9 [demoRecordA] [demoSeedIngested] ∧
        s'.url = s.url ∧ s'.depth = s.depth ∧ s'.attempts = s.attempts ∧
        s'.created_at = s.created_at) ∧
    (∃ s', s' ∈ load_seeds_bulk 9 [demoRecordA] [demoSeedIngested] ∧
      s'.url = "http://aaaa.onion/" ∧ s'.status = SeedStatus.pending) :=
  ⟨(loader_resets_status_spec 9 [demoRecordA] [demoSeedIngested]).1,
   (loader_resets_status_spec 9 [demoRecordA] [demoSeedIngested]).2 demoRecordA
     (List.mem_singleton.mpr rfl) "http://aaaa.onion/" (by decide) (by decide)
     ⟨demoSeedIngested, List.mem_singleton.mpr rfl, by decide⟩⟩

/-- C6 counterexample: a seed in the terminal state ingested whose url is
listed in the input file is moved back to pending by the loader, so its
status is not left unchanged. -/
theorem loader_resets_status_counterexample :
    demoSeedIngested.status = SeedStatus.ingested ∧
    ((load_seeds_bulk 9 [demoRecordA] [demoSeedIngested]).map Seed.status) =
      [SeedStatus.pending] := by
  constructor
  · decide
  · decide


/-
C8: the Page merge of the ingestion service.
-/

theorem find?_map_ite {α : Type} (P : α → Prop) [DecidablePred P] (f : α → α)
    (hf : ∀ a, P a → P (f a)) :
    ∀ l : List α,
      (l.map fun a => if P a then f a else a).find? (fun a => decide (P a)) =
        (l.find? fun a => decide (P a)).map f := by
  intro l
  induction l with
  | nil => rfl
  | cons a rest ih =>
    by_cases h : P a
    · rw [List.map_cons, if_pos h]
      rw [List.find?_cons_of_pos _ (by simp [hf a h]),
          List.find?_cons_of_pos _ (by simp [h])]
      rfl
    · rw [List.map_cons, if_neg h]
      rw [List.find?_cons_of_neg _ (by simp [h]),
          List.find?_cons_of_neg _ (by simp [h])]
      exact ih

/-- C8: the Page merge, applied to an already-existing Page node,
overwrites title and text only when the incoming value is nonempty (so an
existing value is never replaced by an empty incoming one) and always
refreshes updated_at to coalesce(crawl_date, now); when the Page is
absent it is created carrying all the payload values the merge receives:
url, title, text, the host derived from the url, the html-content flag
and first_seen. -/
theorem page_merge_spec :
    ∀ (now : Nat) (pm : PageMsg) (g : Graph),
    (pageOf g pm.url = none →
      pageOf (mergePage now pm.url (hostOf pm.url) pm.title pm.text pm.crawl_date g)
          pm.url =
        some { url := pm.url
               title := some pm.title
               text := some pm.text
               host := some (hostOf pm.url)
               has_html_content := some true
               first_seen := some (pm.crawl_date.getD now)
               first_seen_as_link := none
               updated_at := none
               seedLabel := false }) ∧
    (∀ n, pageOf g pm.url = some n →
      pageOf (mergePage now pm.url (hostOf pm.url) pm.title pm.text pm.crawl_date g)
          pm.url =
        some { n with
               title := if pm.title ≠ "" then some pm.title else n.title
               text := if pm.text ≠ "" then some pm.text else n.text
               updated_at := some (pm.crawl_date.getD now) }) := by
  intro now pm g
  constructor
  · intro h
    have hnone : (g.pages.find? fun n => decide (n.url = pm.url)) = none := h
    have hany : (g.pages.any fun n => decide (n.url = pm.url)) = false := by
      by_contra hc
      have h1 : (g.pages.any fun n => decide (n.url = pm.url)) = true := by
        cases h2 : g.pages.any fun n => decide (n.url = pm.url)
        · exact absurd h2 hc
        · rfl
      rcases List.any_eq_true.mp h1 with ⟨n, hn, hp⟩
      have := List.find?_eq_none.mp hnone n hn
      exact this hp
    unfold mergePage
    rw [if_neg (by rw [hany]; simp)]
    unfold pageOf
    rw [List.find?_append]
    unfold pageOf at h
    rw [h]
    simp
  · intro n hn
    have hfind : (g.pages.find? fun x => decide (x.url = pm.url)) = some n := hn
    have hpn := List.find?_some hfind
    have hany : (g.pages.any fun x => decide (x.url = pm.url)) = true :=
      List.any_eq_true.mpr ⟨n, List.mem_of_find?_eq_some hfind, hpn⟩
    unfold mergePage
    rw [if_pos hany]
    unfold pageOf
    rw [find?_map_ite (fun x : PageNode => x.url = pm.url)
      (fun x =>
        { x with
          title := if pm.title ≠ "" then some pm.title else x.title
          text := if pm.text ≠ "" then some pm.text else x.text
          updated_at := some (pm.crawl_date.getD now) })
      (fun a ha => ha) g.pages]
    rw [hfind]
    rfl

/-- A concrete page payload for witnesses. -/
def demoPageMsg : PageMsg :=
  { url := "http://pppp.onion/"
    title := "Demo"
    text := "demo text"
    crawl_date := some 5
    http_content_type := "text/html"
    html_file_id := some "gid" }

theorem page_merge_spec_witness :
    (pageOf (mergePage 10 demoPageMsg.url (hostOf demoPageMsg.url) demoPageMsg.title
        demoPageMsg.text demoPageMsg.crawl_date emptyGraph) demoPageMsg.url =
      some { url := demoPageMsg.url
             title := some demoPageMsg.title
             text := some demoPageMsg.text
             host := some (hostOf demoPageMsg.url)
             has_html_content := some true
             first_seen := some (demoPageMsg.crawl_date.getD 10)
             first_seen_as_link := none
             updated_at := none
             seedLabel := false }) :=
  (page_merge_spec 10 demoPageMsg emptyGraph).1 (by decide)


/-
C1: idempotence of the ingestion upsert.  Preservation lemmas.
-/

theorem find?_map_invar {α : Type} (p : α → Bool) (f : α → α)
    (h1 : ∀ a, p (f a) = p a) (h2 : ∀ a, p a = true → f a = a) :
    ∀ l : List α, (l.map f).find? p = l.find? p := by
  intro l
  induction l with
  | nil => rfl
  | cons a rest ih =>
    cases hpa : p a with
    | true =>
      rw [List.map_cons, List.find?_cons_of_pos _ (by rw [h1]; exact hpa),
          List.find?_cons_of_pos _ hpa, h2 a hpa]
    | false =>
      rw [List.map_cons, List.find?_cons_of_neg _ (by simp [h1, hpa]),
          List.find?_cons_of_neg _ (by simp [hpa])]
      exact ih

theorem pageOf_congr (g1 g2 : Graph) (u : String) (h : g1.pages = g2.pages) :
    pageOf g1 u = pageOf g2 u := by
  unfold pageOf
  rw [h]

theorem linkOf_congr (g1 g2 : Graph) (s d : String) (h : g1.links = g2.links) :
    linkOf g1 s d = linkOf g2 s d := by
  unfold linkOf
  rw [h]

theorem mentionOf_congr (g1 g2 : Graph) (pu so ro sy : String)
    (h : g1.mentions = g2.mentions) :
    mentionOf g1 pu so ro sy = mentionOf g2 pu so ro sy := by
  unfold mentionOf
  rw [h]

theorem mergeBarePage_links (u : String) (g : Graph) :
    (mergeBarePage u g).links = g.links := by
  unfold mergeBarePage; split <;> rfl

theorem mergeBarePage_mentions (u : String) (g : Graph) :
    (mergeBarePage u g).mentions = g.mentions := by
  unfold mergeBarePage; split <;> rfl

theorem mergeSeedPage_links (u : String) (cd : Option Nat) (now : Nat) (g : Graph) :
    (mergeSeedPage u cd now g).links = g.links := by
  unfold mergeSeedPage; split <;> rfl

theorem mergeSeedPage_mentions (u : String) (cd : Option Nat) (now : Nat) (g : Graph) :
    (mergeSeedPage u cd now g).mentions = g.mentions := by
  unfold mergeSeedPage; split <;> rfl

theorem mergePage_links (now : Nat) (u h t x : String) (cd : Option Nat) (g : Graph) :
    (mergePage now u h t x cd g).links = g.links := by
  unfold mergePage; split <;> rfl

theorem mergePage_mentions (now : Nat) (u h t x : String) (cd : Option Nat) (g : Graph) :
    (mergePage now u h t x cd g).mentions = g.mentions := by
  unfold mergePage; split <;> rfl

theorem mergeTermNode_pages (ro : String) (g : Graph) :
    (mergeTermNode ro g).pages = g.pages := by
  unfold mergeTermNode; split <;> rfl

theorem mergeTermNode_links (ro : String) (g : Graph) :
    (mergeTermNode ro g).links = g.links := by
  unfold mergeTermNode; split <;> rfl

theorem mergeTermNode_mentions (ro : String) (g : Graph) :
    (mergeTermNode ro g).mentions = g.mentions := by
  unfold mergeTermNode; split <;> rfl

theorem mergeSynonymNode_pages (sy : String) (g : Graph) :
    (mergeSynonymNode sy g).pages = g.pages := by
  unfold mergeSynonymNode; split <;> rfl

theorem mergeSynonymNode_links (sy : String) (g : Graph) :
    (mergeSynonymNode sy g).links = g.links := by
  unfold mergeSynonymNode; split <;> rfl

theorem mergeSynonymNode_mentions (sy : String) (g : Graph) :
    (mergeSynonymNode sy g).mentions = g.mentions := by
  unfold mergeSynonymNode; split <;> rfl

theorem mergeSynEdge_pages (sy ro : String) (g : Graph) :
    (mergeSynEdge sy ro g).pages = g.pages := by
  unfold mergeSynEdge; split <;> rfl

theorem mergeSynEdge_links (sy ro : String) (g : Graph) :
    (mergeSynEdge sy ro g).links = g.links := by
  unfold mergeSynEdge; split <;> rfl

theorem mergeSynEdge_mentions (sy ro : String) (g : Graph) :
    (mergeSynEdge sy ro g).mentions = g.mentions := by
  unfold mergeSynEdge; split <;> rfl

theorem mergeMentionEdge_pages (now : Nat) (r : TermRow) (g : Graph) :
    (mergeMentionEdge now r g).pages = g.pages := by
  unfold mergeMentionEdge; split <;> rfl

theorem mergeMentionEdge_links (now : Nat) (r : TermRow) (g : Graph) :
    (mergeMentionEdge now r g).links = g.links := by
  unfold mergeMentionEdge; split <;> rfl

theorem mergeLinkEdge_pages (now : Nat) (r : LinkRow) (g : Graph) :
    (mergeLinkEdge now r g).pages = g.pages := by
  unfold mergeLinkEdge; split <;> rfl

theorem mergeLinkEdge_mentions (now : Nat) (r : LinkRow) (g : Graph) :
    (mergeLinkEdge now r g).mentions = g.mentions := by
  unfold mergeLinkEdge; split <;> rfl

theorem mergeLinkRow_mentions (now : Nat) (r : LinkRow) (g : Graph) :
    (mergeLinkRow now r g).mentions = g.mentions := by
  unfold mergeLinkRow
  rw [mergeLinkEdge_mentions, mergeSeedPage_mentions, mergeBarePage_mentions]

theorem mergeTermRow_links (now : Nat) (r : TermRow) (g : Graph) :
    (mergeTermRow now r g).links = g.links := by
  unfold mergeTermRow
  rw [mergeMentionEdge_links, mergeBarePage_links, mergeSynEdge_links,
      mergeSynonymNode_links, mergeTermNode_links]

theorem mergeBarePage_pageOf {g : Graph} {u2 u : String} {n : PageNode}
    (h : pageOf g u = some n) : pageOf (mergeBarePage u2 g) u = some n := by
  unfold mergeBarePage
  split
  · exact h
  · show (g.pages ++ [barePage u2]).find? (fun x => decide (x.url = u)) = some n
    rw [List.find?_append]
    unfold pageOf at h
    rw [h]
    rfl

theorem mergeSeedPage_pageOf {g : Graph} {u2 u : String} {cd : Option Nat}
    {now : Nat} {n : PageNode}
    (h : pageOf g u = some n) : pageOf (mergeSeedPage u2 cd now g) u = some n := by
  unfold mergeSeedPage
  split
  · exact h
  · show (g.pages ++ [_]).find? (fun x => decide (x.url = u)) = some n
    rw [List.find?_append]
    unfold pageOf at h
    rw [h]
    rfl

theorem mergeLinkRow_pageOf {g : Graph} {u : String} {n : PageNode}
    (now : Nat) (r : LinkRow)
    (h : pageOf g u = some n) : pageOf (mergeLinkRow now r g) u = some n := by
  unfold mergeLinkRow
  rw [pageOf_congr _ _ u (mergeLinkEdge_pages now r _)]
  exact mergeSeedPage_pageOf (mergeBarePage_pageOf h)

theorem mergeTermRow_pageOf {g : Graph} {u : String} {n : PageNode}
    (now : Nat) (r : TermRow)
    (h : pageOf g u = some n) : pageOf (mergeTermRow now r g) u = some n := by
  unfold mergeTermRow
  rw [pageOf_congr _ _ u (mergeMentionEdge_pages now r _)]
  apply mergeBarePage_pageOf
  rw [pageOf_congr _ _ u (mergeSynEdge_pages _ _ _),
      pageOf_congr _ _ u (mergeSynonymNode_pages _ _),
      pageOf_congr _ _ u (mergeTermNode_pages _ _)]
  exact h

theorem linksFold_cons (now : Nat) (r : LinkRow) (rows : List LinkRow) (g : Graph) :
    linksFold now (r :: rows) g = linksFold now rows (mergeLinkRow now r g) := rfl

theorem termsFold_cons (now : Nat) (r : TermRow) (rows : List TermRow) (g : Graph) :
    termsFold now (r :: rows) g = termsFold now rows (mergeTermRow now r g) := rfl

theorem linksFold_mentions (now : Nat) : ∀ (rows : List LinkRow) (g : Graph),
    (linksFold now rows g).mentions = g.mentions := by
  intro rows
  induction rows with
  | nil => intro g; rfl
  | cons r rest ih =>
    intro g
    rw [linksFold_cons, ih, mergeLinkRow_mentions]

theorem termsFold_links (now : Nat) : ∀ (rows : List TermRow) (g : Graph),
    (termsFold now rows g).links = g.links := by
  intro rows
  induction rows with
  | nil => intro g; rfl
  | cons r rest ih =>
    intro g
    rw [termsFold_cons, ih, mergeTermRow_links]

theorem linksFold_pageOf (now : Nat) : ∀ (rows : List LinkRow) (g : Graph)
    (u : String) (n : PageNode),
    pageOf g u = some n → pageOf (linksFold now rows g) u = some n := by
  intro rows
  induction rows with
  | nil => intro g u n h; exact h
  | cons r rest ih =>
    intro g u n h
    rw [linksFold_cons]
    exact ih _ u n (mergeLinkRow_pageOf now r h)

theorem termsFold_pageOf (now : Nat) : ∀ (rows : List TermRow) (g : Graph)
    (u : String) (n : PageNode),
    pageOf g u = some n → pageOf (termsFold now rows g) u = some n := by
  intro rows
  induction rows with
  | nil => intro g u n h; exact h
  | cons r rest ih =>
    intro g u n h
    rw [termsFold_cons]
    exact ih _ u n (mergeTermRow_pageOf now r h)


/-
C1: behaviour of the edge merges on their own key and on other keys.
-/

theorem mergeLinkEdge_self (now : Nat) (r : LinkRow) (g : Graph) (e : LinkEdge)
    (h : linkOf g r.src_url r.dst_url = some e) :
    linkOf (mergeLinkEdge now r g) r.src_url r.dst_url =
      some { e with
             count := e.count + 1
             last_detected := some (r.crawl_date.getD now)
             last_anchor := some r.anchor } := by
  have hfind : g.links.find?
      (fun x => decide (x.src = r.src_url ∧ x.dst = r.dst_url)) = some e := h
  have hpe := List.find?_some hfind
  have hany : (g.links.any fun x =>
      decide (x.src = r.src_url ∧ x.dst = r.dst_url)) = true :=
    List.any_eq_true.mpr ⟨e, List.mem_of_find?_eq_some hfind, hpe⟩
  unfold mergeLinkEdge
  rw [if_pos hany]
  show (g.links.map fun x : LinkEdge =>
      if x.src = r.src_url ∧ x.dst = r.dst_url then
        { x with
          count := x.count + 1
          last_detected := some (r.crawl_date.getD now)
          last_anchor := some r.anchor }
      else x).find? (fun x => decide (x.src = r.src_url ∧ x.dst = r.dst_url)) = _
  rw [find?_map_ite (fun x : LinkEdge => x.src = r.src_url ∧ x.dst = r.dst_url)
    (fun x =>
      { x with
        count := x.count + 1
        last_detected := some (r.crawl_date.getD now)
        last_anchor := some r.anchor })
    (fun a ha => ha) g.links]
  rw [hfind]
  rfl

theorem mergeLinkEdge_new (now : Nat) (r : LinkRow) (g : Graph)
    (h : linkOf g r.src_url r.dst_url = none) :
    linkOf (mergeLinkEdge now r g) r.src_url r.dst_url =
      some { src := r.src_url
             dst := r.dst_url
             first_detected := some (r.crawl_date.getD now)
             count := 1
             depth := some r.depth
             last_detected := none
             last_anchor := none } := by
  have hfind : g.links.find?
      (fun x => decide (x.src = r.src_url ∧ x.dst = r.dst_url)) = none := h
  have hany : (g.links.any fun x =>
      decide (x.src = r.src_url ∧ x.dst = r.dst_url)) = false := by
    cases h2 : g.links.any fun x => decide (x.src = r.src_url ∧ x.dst = r.dst_url)
    · rfl
    · rcases List.any_eq_true.mp h2 with ⟨x, hx, hpx⟩
      exact absurd hpx (List.find?_eq_none.mp hfind x hx)
  unfold mergeLinkEdge
  rw [if_neg (by rw [hany]; simp)]
  show (g.links ++ [_]).find?
      (fun x : LinkEdge => decide (x.src = r.src_url ∧ x.dst = r.dst_url)) = _
  rw [List.find?_append, hfind]
  simp

theorem mergeLinkEdge_other (now : Nat) (r : LinkRow) (g : Graph) (s d : String)
    (hne : ¬ (r.src_url = s ∧ r.dst_url = d)) :
    linkOf (mergeLinkEdge now r g) s d = linkOf g s d := by
  unfold mergeLinkEdge
  split
  · show (g.links.map fun x : LinkEdge =>
        if x.src = r.src_url ∧ x.dst = r.dst_url then
          { x with
            count := x.count + 1
            last_detected := some (r.crawl_date.getD now)
            last_anchor := some r.anchor }
        else x).find? (fun x => decide (x.src = s ∧ x.dst = d)) = _
    rw [find?_map_invar (fun x : LinkEdge => decide (x.src = s ∧ x.dst = d))
      (fun x : LinkEdge =>
        if x.src = r.src_url ∧ x.dst = r.dst_url then
          { x with
            count := x.count + 1
            last_detected := some (r.crawl_date.getD now)
            last_anchor := some r.anchor }
        else x)
      (by
        intro a
        dsimp only
        by_cases hq : a.src = r.src_url ∧ a.dst = r.dst_url
        · rw [if_pos hq]
        · rw [if_neg hq])
      (by
        intro a ha
        dsimp only
        have hkey : a.src = s ∧ a.dst = d := by simpa using ha
        have hq : ¬ (a.src = r.src_url ∧ a.dst = r.dst_url) := by
          intro hq
          exact hne ⟨hq.1.symm.trans hkey.1, hq.2.symm.trans hkey.2⟩
        rw [if_neg hq])
      g.links]
    rfl
  · show (g.links ++ [_]).find?
        (fun x : LinkEdge => decide (x.src = s ∧ x.dst = d)) = _
    rw [List.find?_append]
    have hnew : ([({ src := r.src_url
                     dst := r.dst_url
                     first_detected := some (r.crawl_date.getD now)
                     count := 1
                     depth := some r.depth
                     last_detected := none
                     last_anchor := none } : LinkEdge)].find?
        (fun x => decide (x.src = s ∧ x.dst = d))) = none := by
      simp [hne]
    rw [hnew, Option.or_none]
    rfl

theorem mergeMentionEdge_self (now : Nat) (r : TermRow) (g : Graph) (e : MentionEdge)
    (h : mentionOf g r.page_url r.source r.root r.synonym = some e) :
    mentionOf (mergeMentionEdge now r g) r.page_url r.source r.root r.synonym =
      some { e with count := e.count + 1 } := by
  have hfind : g.mentions.find?
      (fun x => decide (x.page = r.page_url ∧ x.source = r.source ∧
                        x.root = r.root ∧ x.synonym = r.synonym)) = some e := h
  have hpe := List.find?_some hfind
  have hany : (g.mentions.any fun x =>
      decide (x.page = r.page_url ∧ x.source = r.source ∧
              x.root = r.root ∧ x.synonym = r.synonym)) = true :=
    List.any_eq_true.mpr ⟨e, List.mem_of_find?_eq_some hfind, hpe⟩
  unfold mergeMentionEdge
  rw [if_pos hany]
  show (g.mentions.map fun x : MentionEdge =>
      if x.page = r.page_url ∧ x.source = r.source ∧
          x.root = r.root ∧ x.synonym = r.synonym then
        { x with count := x.count + 1 }
      else x).find?
      (fun x => decide (x.page = r.page_url ∧ x.source = r.source ∧
                        x.root = r.root ∧ x.synonym = r.synonym)) = _
  rw [find?_map_ite (fun x : MentionEdge => x.page = r.page_url ∧
        x.source = r.source ∧ x.root = r.root ∧ x.synonym = r.synonym)
    (fun x => { x with count := x.count + 1 })
    (fun a ha => ha) g.mentions]
  rw [hfind]
  rfl

theorem mergeMentionEdge_new (now : Nat) (r : TermRow) (g : Graph)
    (h : mentionOf g r.page_url r.source r.root r.synonym = none) :
    mentionOf (mergeMentionEdge now r g) r.page_url r.source r.root r.synonym =
      some { page := r.page_url
             source := r.source
             root := r.root
             synonym := r.synonym
             first_seen := some (r.crawl_date.getD now)
             count := 1 } := by
  have hfind : g.mentions.find?
      (fun x => decide (x.page = r.page_url ∧ x.source = r.source ∧
                        x.root = r.root ∧ x.synonym = r.synonym)) = none := h
  have hany : (g.mentions.any fun x =>
      decide (x.page = r.page_url ∧ x.source = r.source ∧
              x.root = r.root ∧ x.synonym = r.synonym)) = false := by
    cases h2 : g.mentions.any fun x =>
        decide (x.page = r.page_url ∧ x.source = r.source ∧
                x.root = r.root ∧ x.synonym = r.synonym)
    · rfl
    · rcases List.any_eq_true.mp h2 with ⟨x, hx, hpx⟩
      exact absurd hpx (List.find?_eq_none.mp hfind x hx)
  unfold mergeMentionEdge
  rw [if_neg (by rw [hany]; simp)]
  show (g.mentions ++ [_]).find?
      (fun x : MentionEdge => decide (x.page = r.page_url ∧ x.source = r.source ∧
                        x.root = r.root ∧ x.synonym = r.synonym)) = _
  rw [List.find?_append, hfind]
  simp

theorem mergeMentionEdge_other (now : Nat) (r : TermRow) (g : Graph)
    (pu so ro sy : String)
    (hne : ¬ (r.page_url = pu ∧ r.source = so ∧ r.root = ro ∧ r.synonym = sy)) :
    mentionOf (mergeMentionEdge now r g) pu so ro sy = mentionOf g pu so ro sy := by
  unfold mergeMentionEdge
  split
  · show (g.mentions.map fun x : MentionEdge =>
        if x.page = r.page_url ∧ x.source = r.source ∧
            x.root = r.root ∧ x.synonym = r.synonym then
          { x with count := x.count + 1 }
        else x).find?
        (fun x => decide (x.page = pu ∧ x.source = so ∧
                          x.root = ro ∧ x.synonym = sy)) = _
    rw [find?_map_invar
      (fun x : MentionEdge => decide (x.page = pu ∧ x.source = so ∧
                                      x.root = ro ∧ x.synonym = sy))
      (fun x : MentionEdge =>
        if x.page = r.page_url ∧ x.source = r.source ∧
            x.root = r.root ∧ x.synonym = r.synonym then
          { x with count := x.count + 1 }
        else x)
      (by
        intro a
        dsimp only
        by_cases hq : a.page = r.page_url ∧ a.source = r.source ∧
            a.root = r.root ∧ a.synonym = r.synonym
        · rw [if_pos hq]
        · rw [if_neg hq])
      (by
        intro a ha
        dsimp only
        have hkey : a.page = pu ∧ a.source = so ∧ a.root = ro ∧ a.synonym = sy := by
          simpa using ha
        have hq : ¬ (a.page = r.page_url ∧ a.source = r.source ∧
            a.root = r.root ∧ a.synonym = r.synonym) := by
          intro hq
          exact hne ⟨hq.1.symm.trans hkey.1, hq.2.1.symm.trans hkey.2.1,
            hq.2.2.1.symm.trans hkey.2.2.1, hq.2.2.2.symm.trans hkey.2.2.2⟩
        rw [if_neg hq])
      g.mentions]
    rfl
  · show (g.mentions ++ [_]).find?
        (fun x : MentionEdge => decide (x.page = pu ∧ x.source = so ∧
                          x.root = ro ∧ x.synonym = sy)) = _
    rw [List.find?_append]
    have hnew : ([({ page := r.page_url
                     source := r.source
                     root := r.root
                     synonym := r.synonym
                     first_seen := some (r.crawl_date.getD now)
                     count := 1 } : MentionEdge)].find?
        (fun x => decide (x.page = pu ∧ x.source = so ∧
                          x.root = ro ∧ x.synonym = sy))) = none := by
      simp [hne]
    rw [hnew, Option.or_none]
    rfl


/-
C1: row-level and fold-level lemmas.
-/

theorem pagesMerge_linkOf (now : Nat) (r : LinkRow) (g : Graph) (s d : String) :
    linkOf (mergeSeedPage r.dst_url r.crawl_date now (mergeBarePage r.src_url g)) s d =
      linkOf g s d := by
  rw [linkOf_congr _ _ s d (mergeSeedPage_links _ _ _ _),
      linkOf_congr _ _ s d (mergeBarePage_links _ _)]

theorem mergeLinkRow_self (now : Nat) (r : LinkRow) (g : Graph) (e : LinkEdge)
    (h : linkOf g r.src_url r.dst_url = some e) :
    linkOf (mergeLinkRow now r g) r.src_url r.dst_url =
      some { e with
             count := e.count + 1
             last_detected := some (r.crawl_date.getD now)
             last_anchor := some r.anchor } := by
  unfold mergeLinkRow
  apply mergeLinkEdge_self
  rw [pagesMerge_linkOf]
  exact h

theorem mergeLinkRow_other (now : Nat) (r : LinkRow) (g : Graph) (s d : String)
    (hne : ¬ (r.src_url = s ∧ r.dst_url = d)) :
    linkOf (mergeLinkRow now r g) s d = linkOf g s d := by
  unfold mergeLinkRow
  rw [mergeLinkEdge_other now r _ s d hne, pagesMerge_linkOf]

theorem mergeLinkRow_creates (now : Nat) (r : LinkRow) (g : Graph) :
    (linkOf (mergeLinkRow now r g) r.src_url r.dst_url).isSome = true := by
  cases hfind : linkOf g r.src_url r.dst_url with
  | none =>
    unfold mergeLinkRow
    rw [mergeLinkEdge_new now r _ (by rw [pagesMerge_linkOf]; exact hfind)]
    rfl
  | some e =>
    rw [mergeLinkRow_self now r g e hfind]
    rfl

theorem mergeLinkRow_isSome (now : Nat) (r : LinkRow) (g : Graph) (s d : String)
    (h : (linkOf g s d).isSome = true) :
    (linkOf (mergeLinkRow now r g) s d).isSome = true := by
  by_cases hk : r.src_url = s ∧ r.dst_url = d
  · rcases hk with ⟨rfl, rfl⟩
    exact mergeLinkRow_creates now r g
  · rw [mergeLinkRow_other now r g s d hk]
    exact h

theorem mentionPrefix_mentionOf (r : TermRow) (g : Graph)
    (pu so ro sy : String) :
    mentionOf (mergeBarePage r.page_url
        (mergeSynEdge r.synonym r.root
          (mergeSynonymNode r.synonym (mergeTermNode r.root g)))) pu so ro sy =
      mentionOf g pu so ro sy := by
  rw [mentionOf_congr _ _ pu so ro sy (mergeBarePage_mentions _ _),
      mentionOf_congr _ _ pu so ro sy (mergeSynEdge_mentions _ _ _),
      mentionOf_congr _ _ pu so ro sy (mergeSynonymNode_mentions _ _),
      mentionOf_congr _ _ pu so ro sy (mergeTermNode_mentions _ _)]

theorem mergeTermRow_self (now : Nat) (r : TermRow) (g : Graph) (e : MentionEdge)
    (h : mentionOf g r.page_url r.source r.root r.synonym = some e) :
    mentionOf (mergeTermRow now r g) r.page_url r.source r.root r.synonym =
      some { e with count := e.count + 1 } := by
  unfold mergeTermRow
  apply mergeMentionEdge_self
  rw [mentionPrefix_mentionOf]
  exact h

theorem mergeTermRow_other (now : Nat) (r : TermRow) (g : Graph)
    (pu so ro sy : String)
    (hne : ¬ (r.page_url = pu ∧ r.source = so ∧ r.root = ro ∧ r.synonym = sy)) :
    mentionOf (mergeTermRow now r g) pu so ro sy = mentionOf g pu so ro sy := by
  unfold mergeTermRow
  rw [mergeMentionEdge_other now r _ pu so ro sy hne, mentionPrefix_mentionOf]

theorem mergeTermRow_creates (now : Nat) (r : TermRow) (g : Graph) :
    (mentionOf (mergeTermRow now r g) r.page_url r.source r.root r.synonym).isSome =
      true := by
  cases hfind : mentionOf g r.page_url r.source r.root r.synonym with
  | none =>
    unfold mergeTermRow
    rw [mergeMentionEdge_new now r _ (by rw [mentionPrefix_mentionOf]; exact hfind)]
    rfl
  | some e =>
    rw [mergeTermRow_self now r g e hfind]
    rfl

theorem mergeTermRow_isSome (now : Nat) (r : TermRow) (g : Graph)
    (pu so ro sy : String)
    (h : (mentionOf g pu so ro sy).isSome = true) :
    (mentionOf (mergeTermRow now r g) pu so ro sy).isSome = true := by
  by_cases hk : r.page_url = pu ∧ r.source = so ∧ r.root = ro ∧ r.synonym = sy
  · rcases hk with ⟨rfl, rfl, rfl, rfl⟩
    exact mergeTermRow_creates now r g
  · rw [mergeTermRow_other now r g pu so ro sy hk]
    exact h

theorem linksFold_other (now : Nat) : ∀ (rows : List LinkRow) (g : Graph)
    (s d : String), (∀ x ∈ rows, ¬ (x.src_url = s ∧ x.dst_url = d)) →
    linkOf (linksFold now rows g) s d = linkOf g s d := by
  intro rows
  induction rows with
  | nil => intro g s d _; rfl
  | cons r rest ih =>
    intro g s d hall
    rw [linksFold_cons, ih _ s d (fun x hx => hall x (List.mem_cons_of_mem r hx)),
        mergeLinkRow_other now r g s d (hall r (List.mem_cons_self r rest))]

theorem linksFold_isSome (now : Nat) : ∀ (rows : List LinkRow) (g : Graph)
    (s d : String), (linkOf g s d).isSome = true →
    (linkOf (linksFold now rows g) s d).isSome = true := by
  intro rows
  induction rows with
  | nil => intro g s d h; exact h
  | cons r rest ih =>
    intro g s d h
    rw [linksFold_cons]
    exact ih _ s d (mergeLinkRow_isSome now r g s d h)

theorem linksFold_exists (now : Nat) : ∀ (rows : List LinkRow) (g : Graph),
    ∀ r ∈ rows, (linkOf (linksFold now rows g) r.src_url r.dst_url).isSome = true := by
  intro rows
  induction rows with
  | nil => intro g r hr; simp at hr
  | cons x rest ih =>
    intro g r hr
    rw [linksFold_cons]
    rcases List.mem_cons.mp hr with rfl | hr2
    · exact linksFold_isSome now rest _ r.src_url r.dst_url (mergeLinkRow_creates now r g)
    · exact ih _ r hr2

theorem termsFold_other (now : Nat) : ∀ (rows : List TermRow) (g : Graph)
    (pu so ro sy : String),
    (∀ x ∈ rows, ¬ (x.page_url = pu ∧ x.source = so ∧ x.root = ro ∧ x.synonym = sy)) →
    mentionOf (termsFold now rows g) pu so ro sy = mentionOf g pu so ro sy := by
  intro rows
  induction rows with
  | nil => intro g pu so ro sy _; rfl
  | cons r rest ih =>
    intro g pu so ro sy hall
    rw [termsFold_cons, ih _ pu so ro sy (fun x hx => hall x (List.mem_cons_of_mem r hx)),
        mergeTermRow_other now r g pu so ro sy (hall r (List.mem_cons_self r rest))]

theorem termsFold_isSome (now : Nat) : ∀ (rows : List TermRow) (g : Graph)
    (pu so ro sy : String), (mentionOf g pu so ro sy).isSome = true →
    (mentionOf (termsFold now rows g) pu so ro sy).isSome = true := by
  intro rows
  induction rows with
  | nil => intro g pu so ro sy h; exact h
  | cons r rest ih =>
    intro g pu so ro sy h
    rw [termsFold_cons]
    exact ih _ pu so ro sy (mergeTermRow_isSome now r g pu so ro sy h)

theorem termsFold_exists (now : Nat) : ∀ (rows : List TermRow) (g : Graph),
    ∀ r ∈ rows,
    (mentionOf (termsFold now rows g) r.page_url r.source r.root r.synonym).isSome =
      true := by
  intro rows
  induction rows with
  | nil => intro g r hr; simp at hr
  | cons x rest ih =>
    intro g r hr
    rw [termsFold_cons]
    rcases List.mem_cons.mp hr with rfl | hr2
    · exact termsFold_isSome now rest _ r.page_url r.source r.root r.synonym
        (mergeTermRow_creates now r g)
    · exact ih _ r hr2

theorem linksFold_bump (now : Nat) : ∀ (rows : List LinkRow),
    ((rows.map fun z => (z.src_url, z.dst_url)).Nodup) →
    ∀ (g : Graph), ∀ r ∈ rows, ∀ e : LinkEdge,
    linkOf g r.src_url r.dst_url = some e →
    linkOf (linksFold now rows g) r.src_url r.dst_url =
      some { e with
             count := e.count + 1
             last_detected := some (r.crawl_date.getD now)
             last_anchor := some r.anchor } := by
  intro rows
  induction rows with
  | nil => intro _ g r hr; simp at hr
  | cons x rest ih =>
    intro hnd g r hr e he
    rw [List.map_cons, List.nodup_cons] at hnd
    rw [linksFold_cons]
    rcases List.mem_cons.mp hr with rfl | hr2
    · have hrest : ∀ y ∈ rest, ¬ (y.src_url = r.src_url ∧ y.dst_url = r.dst_url) := by
        intro y hy hcon
        exact hnd.1 (List.mem_map.mpr ⟨y, hy, by rw [hcon.1, hcon.2]⟩)
      rw [linksFold_other now rest _ r.src_url r.dst_url hrest]
      exact mergeLinkRow_self now r g e he
    · have hxkey : ¬ (x.src_url = r.src_url ∧ x.dst_url = r.dst_url) := by
        intro hcon
        refine hnd.1 (List.mem_map.mpr ⟨r, hr2, ?_⟩)
        rw [hcon.1, hcon.2]
      have he2 : linkOf (mergeLinkRow now x g) r.src_url r.dst_url = some e := by
        rw [mergeLinkRow_other now x g _ _ hxkey]
        exact he
      exact ih hnd.2 _ r hr2 e he2

theorem termsFold_bump (now : Nat) : ∀ (rows : List TermRow),
    ((rows.map fun z => (z.page_url, z.source, z.root, z.synonym)).Nodup) →
    ∀ (g : Graph), ∀ r ∈ rows, ∀ e : MentionEdge,
    mentionOf g r.page_url r.source r.root r.synonym = some e →
    mentionOf (termsFold now rows g) r.page_url r.source r.root r.synonym =
      some { e with count := e.count + 1 } := by
  intro rows
  induction rows with
  | nil => intro _ g r hr; simp at hr
  | cons x rest ih =>
    intro hnd g r hr e he
    rw [List.map_cons, List.nodup_cons] at hnd
    rw [termsFold_cons]
    rcases List.mem_cons.mp hr with rfl | hr2
    · have hrest : ∀ y ∈ rest,
          ¬ (y.page_url = r.page_url ∧ y.source = r.source ∧
             y.root = r.root ∧ y.synonym = r.synonym) := by
        intro y hy hcon
        exact hnd.1 (List.mem_map.mpr
          ⟨y, hy, by rw [hcon.1, hcon.2.1, hcon.2.2.1, hcon.2.2.2]⟩)
      rw [termsFold_other now rest _ r.page_url r.source r.root r.synonym hrest]
      exact mergeTermRow_self now r g e he
    · have hxkey : ¬ (x.page_url = r.page_url ∧ x.source = r.source ∧
          x.root = r.root ∧ x.synonym = r.synonym) := by
        intro hcon
        refine hnd.1 (List.mem_map.mpr ⟨r, hr2, ?_⟩)
        rw [hcon.1, hcon.2.1, hcon.2.2.1, hcon.2.2.2]
      have he2 : mentionOf (mergeTermRow now x g) r.page_url r.source r.root
          r.synonym = some e := by
        rw [mergeTermRow_other now x g _ _ _ _ hxkey]
        exact he
      exact ih hnd.2 _ r hr2 e he2


/-
C1: the Page merge seen through pageOf, and the idempotence theorem.
-/

theorem mergePage_absent (now : Nat) (u hs t x : String) (cd : Option Nat)
    (g : Graph) (h : pageOf g u = none) :
    pageOf (mergePage now u hs t x cd g) u =
      some { url := u
             title := some t
             text := some x
             host := some hs
             has_html_content := some true
             first_seen := some (cd.getD now)
             first_seen_as_link := none
             updated_at := none
             seedLabel := false } := by
  have hnone : (g.pages.find? fun n => decide (n.url = u)) = none := h
  have hany : (g.pages.any fun n => decide (n.url = u)) = false := by
    cases h2 : g.pages.any fun n => decide (n.url = u)
    · rfl
    · rcases List.any_eq_true.mp h2 with ⟨n, hn, hp⟩
      exact absurd hp (List.find?_eq_none.mp hnone n hn)
  unfold mergePage
  rw [if_neg (by rw [hany]; simp)]
  show (g.pages ++ [_]).find? (fun n : PageNode => decide (n.url = u)) = _
  rw [List.find?_append, hnone]
  simp

theorem mergePage_present (now : Nat) (u hs t x : String) (cd : Option Nat)
    (g : Graph) (n : PageNode) (h : pageOf g u = some n) :
    pageOf (mergePage now u hs t x cd g) u =
      some { n with
             title := if t ≠ "" then some t else n.title
             text := if x ≠ "" then some x else n.text
             updated_at := some (cd.getD now) } := by
  have hfind : (g.pages.find? fun z => decide (z.url = u)) = some n := h
  have hpn := List.find?_some hfind
  have hany : (g.pages.any fun z => decide (z.url = u)) = true :=
    List.any_eq_true.mpr ⟨n, List.mem_of_find?_eq_some hfind, hpn⟩
  unfold mergePage
  rw [if_pos hany]
  show (g.pages.map fun z : PageNode =>
      if z.url = u then
        { z with
          title := if t ≠ "" then some t else z.title
          text := if x ≠ "" then some x else z.text
          updated_at := some (cd.getD now) }
      else z).find? (fun z => decide (z.url = u)) = _
  rw [find?_map_ite (fun z : PageNode => z.url = u)
      (fun z : PageNode =>
        { z with
          title := if t ≠ "" then some t else z.title
          text := if x ≠ "" then some x else z.text
          updated_at := some (cd.getD now) })
      (fun a ha => ha) g.pages]
  rw [hfind]
  rfl

theorem upsert_title_stable (now : Nat) (p : IngestPayloadMsg) (g : Graph) :
    ∃ n, pageOf (upsert_page_and_relations now p g) p.page.url = some n ∧
      (p.page.title ≠ "" → n.title = some p.page.title) ∧
      (p.page.text ≠ "" → n.text = some p.page.text) := by
  cases h : pageOf g p.page.url with
  | none =>
    have h1 := mergePage_absent now p.page.url (hostOf p.page.url) p.page.title
      p.page.text p.page.crawl_date g h
    exact ⟨_, termsFold_pageOf now p.matched_terms _ p.page.url _
        (linksFold_pageOf now p.links _ p.page.url _ h1),
      fun _ => rfl, fun _ => rfl⟩
  | some n0 =>
    have h1 := mergePage_present now p.page.url (hostOf p.page.url) p.page.title
      p.page.text p.page.crawl_date g n0 h
    refine ⟨_, termsFold_pageOf now p.matched_terms _ p.page.url _
        (linksFold_pageOf now p.links _ p.page.url _ h1), ?_, ?_⟩
    · intro ht
      show (if p.page.title ≠ "" then some p.page.title else n0.title) =
        some p.page.title
      rw [if_pos ht]
    · intro hx
      show (if p.page.text ≠ "" then some p.page.text else n0.text) =
        some p.page.text
      rw [if_pos hx]

/-- C1 (amended): posting the identical ingestion payload twice (whose
link rows have pairwise distinct endpoint pairs and whose matched-term
rows have pairwise distinct keys) yields the same Page node fields after
the second post as after the first except that updated_at is stamped
with coalesce(crawl_date, timestamp) by the second post; for every link
row the LINKS_TO edge's count increments by exactly 1 while its
last_detected and last_anchor are refreshed and first_detected and depth
are kept; and for every matched-term row the MENTIONS edge's count
increments by exactly 1 with every other field kept. -/
theorem ingest_idempotent_spec (now1 now2 : Nat) (p : IngestPayloadMsg)
    (g : Graph)
    (hL : (p.links.map fun z => (z.src_url, z.dst_url)).Nodup)
    (hM : (p.matched_terms.map fun z =>
      (z.page_url, z.source, z.root, z.synonym)).Nodup) :
    (∀ n1, pageOf (upsert_page_and_relations now1 p g) p.page.url = some n1 →
      pageOf (upsert_page_and_relations now2 p (upsert_page_and_relations now1 p g))
          p.page.url =
        some { n1 with updated_at := some (p.page.crawl_date.getD now2) }) ∧
    (∀ r ∈ p.links, ∃ e1 : LinkEdge,
      linkOf (upsert_page_and_relations now1 p g) r.src_url r.dst_url = some e1 ∧
      linkOf (upsert_page_and_relations now2 p (upsert_page_and_relations now1 p g))
          r.src_url r.dst_url =
        some { e1 with
               count := e1.count + 1
               last_detected := some (r.crawl_date.getD now2)
               last_anchor := some r.anchor }) ∧
    (∀ r ∈ p.matched_terms, ∃ e1 : MentionEdge,
      mentionOf (upsert_page_and_relations now1 p g)
          r.page_url r.source r.root r.synonym = some e1 ∧
      mentionOf (upsert_page_and_relations now2 p (upsert_page_and_relations now1 p g))
          r.page_url r.source r.root r.synonym =
        some { e1 with count := e1.count + 1 }) := by
  refine ⟨?_, ?_, ?_⟩
  · intro n1 hn1
    rcases upsert_title_stable now1 p g with ⟨n, hn, hT, hX⟩
    rw [hn1] at hn
    injection hn with hn
    subst hn
    have h2 := mergePage_present now2 p.page.url (hostOf p.page.url) p.page.title
      p.page.text p.page.crawl_date (upsert_page_and_relations now1 p g) n1 hn1
    have eT : (if p.page.title ≠ "" then some p.page.title else n1.title) =
        n1.title := by
      by_cases hc : p.page.title = ""
      · rw [if_neg (by simp [hc])]
      · rw [if_pos hc, hT hc]
    have eX : (if p.page.text ≠ "" then some p.page.text else n1.text) =
        n1.text := by
      by_cases hc : p.page.text = ""
      · rw [if_neg (by simp [hc])]
      · rw [if_pos hc, hX hc]
    rw [eT, eX] at h2
    exact termsFold_pageOf now2 p.matched_terms _ p.page.url _
      (linksFold_pageOf now2 p.links _ p.page.url _ h2)
  · intro r hr
    have hlinks_eq1 : linkOf (upsert_page_and_relations now1 p g)
        r.src_url r.dst_url =
        linkOf (linksFold now1 p.links
          (mergePage now1 p.page.url (hostOf p.page.url) p.page.title p.page.text
            p.page.crawl_date g)) r.src_url r.dst_url :=
      linkOf_congr _ _ _ _ (termsFold_links now1 p.matched_terms _)
    have hex := linksFold_exists now1 p.links
      (mergePage now1 p.page.url (hostOf p.page.url) p.page.title p.page.text
        p.page.crawl_date g) r hr
    rcases Option.isSome_iff_exists.mp hex with ⟨e1, he1⟩
    refine ⟨e1, by rw [hlinks_eq1]; exact he1, ?_⟩
    have hstart : linkOf (mergePage now2 p.page.url (hostOf p.page.url)
        p.page.title p.page.text p.page.crawl_date
        (upsert_page_and_relations now1 p g)) r.src_url r.dst_url = some e1 := by
      rw [linkOf_congr _ _ _ _ (mergePage_links now2 _ _ _ _ _ _), hlinks_eq1]
      exact he1
    have hb := linksFold_bump now2 p.links hL _ r hr e1 hstart
    have final_eq : linkOf (upsert_page_and_relations now2 p
        (upsert_page_and_relations now1 p g)) r.src_url r.dst_url =
        linkOf (linksFold now2 p.links
          (mergePage now2 p.page.url (hostOf p.page.url) p.page.title p.page.text
            p.page.crawl_date (upsert_page_and_relations now1 p g)))
          r.src_url r.dst_url :=
      linkOf_congr _ _ _ _ (termsFold_links now2 p.matched_terms _)
    rw [final_eq]
    exact hb
  · intro r hr
    have hex := termsFold_exists now1 p.matched_terms
      (linksFold now1 p.links
        (mergePage now1 p.page.url (hostOf p.page.url) p.page.title p.page.text
          p.page.crawl_date g)) r hr
    rcases Option.isSome_iff_exists.mp hex with ⟨e1, he1⟩
    refine ⟨e1, he1, ?_⟩
    have hpre : mentionOf (linksFold now2 p.links
        (mergePage now2 p.page.url (hostOf p.page.url) p.page.title p.page.text
          p.page.crawl_date (upsert_page_and_relations now1 p g)))
        r.page_url r.source r.root r.synonym = some e1 := by
      rw [mentionOf_congr _ _ _ _ _ _ (linksFold_mentions now2 p.links _),
          mentionOf_congr _ _ _ _ _ _ (mergePage_mentions now2 _ _ _ _ _ _)]
      exact he1
    exact termsFold_bump now2 p.matched_terms hM _ r hr e1 hpre

/-- A concrete link row for the payload demo. -/
def demoLinkRow : LinkRow :=
  { src_url := "http://pppp.onion/"
    dst_url := "http://qqqq.onion/"
    anchor := "a"
    depth := 0
    dst_html_ref := none
    crawl_date := some 5 }

/-- A concrete matched-term row for the payload demo. -/
def demoTermRow : TermRow :=
  { page_url := "http://pppp.onion/"
    root := "drugs"
    synonym := "weed"
    source := "ahmia"
    crawl_date := some 5 }

/-- A concrete ingestion payload with one link row and one term row. -/
def demoPayload : IngestPayloadMsg :=
  { page :=
      { url := "http://pppp.onion/"
        title := "T"
        text := "X"
        crawl_date := some 5
        http_content_type := ""
        html_file_id := none }
    links := [demoLinkRow]
    matched_terms := [demoTermRow] }

theorem ingest_idempotent_spec_witness :
    ∃ e1 : LinkEdge,
      linkOf (upsert_page_and_relations 10 demoPayload emptyGraph)
        demoLinkRow.src_url demoLinkRow.dst_url = some e1 ∧
      linkOf (upsert_page_and_relations 20 demoPayload
          (upsert_page_and_relations 10 demoPayload emptyGraph))
        demoLinkRow.src_url demoLinkRow.dst_url =
        some { e1 with
               count := e1.count + 1
               last_detected := some (demoLinkRow.crawl_date.getD 20)
               last_anchor := some demoLinkRow.anchor } :=
  (ingest_idempotent_spec 10 20 demoPayload emptyGraph (by decide) (by decide)).2.1
    demoLinkRow (by decide)

/-- C1 counterexample: posting the identical payload twice does not yield
the same Page node fields: on a fresh page the first post leaves
updated_at unset (ON CREATE has no updated_at clause) while the second
post stamps it, so the Page differs beyond the edge counters. -/
theorem ingest_idempotent_counterexample :
    ((pageOf (upsert_page_and_relations 10 demoPayload emptyGraph)
        "http://pppp.onion/").map PageNode.updated_at) = some none ∧
    ((pageOf (upsert_page_and_relations 20 demoPayload
        (upsert_page_and_relations 10 demoPayload emptyGraph))
        "http://pppp.onion/").map PageNode.updated_at) = some (some 5) ∧
    pageOf (upsert_page_and_relations 20 demoPayload
        (upsert_page_and_relations 10 demoPayload emptyGraph)) "http://pppp.onion/" ≠
      pageOf (upsert_page_and_relations 10 demoPayload emptyGraph)
        "http://pppp.onion/" := by
  refine ⟨?_, ?_, ?_⟩
  · decide
  · decide
  · decide

end DarkWeb
